import Mathlib

/-!
# Verification of the sdlc-engine workflow orchestrator

A shallow embedding of the core of the `sdlc-engine` TypeScript repository:

* `StateMachine` (implementations/StateMachine.ts): workflow lifecycle,
  phase execution with retry, and phase-to-phase transitions;
* `PhaseExecutor` (implementations/PhaseExecutor.ts): the dependency-driven
  task scheduler inside one phase, phase completion validation and rollback;
* `TaskExecutor` (implementations/TaskExecutor.ts): type-dispatched task
  execution and result validation.

Modelling conventions:

* JavaScript `Map`s become insertion-ordered association lists
  (`List (String × α)` with `alSet` / `alLookup`), matching `Map.set` /
  `Map.get` semantics (update-in-place for an existing key, append for a
  fresh one).
* `Date` timestamps are abstracted to `Option Unit` (`none` = unset,
  `some ()` = stamped); no claim depends on the numeric value of a time.
* Thrown JavaScript exceptions become an `Except SMError` result.  All
  exception classes of the source (`StateMachineError`, `TransitionError`,
  `PhaseExecutionError`, plain `Error`) are constructors of one inductive.
* The asynchronous control flow is sequentialized: `Promise.allSettled`
  over a scheduling frontier runs the frontier tasks in list order and then
  processes all settled outcomes in order, exactly as the source's
  `results.forEach` does.  The order in which tasks of one frontier are
  *started* is recorded in a trace.
* External collaborators injected into `StateMachine` (definition
  provider, transition validator, phase executor, persistence) are a
  parameter record `Env`; persistence is a pure side effect with no
  observable state in the core, so `updateInstance`/`save` are no-ops here.
* The unbounded recursion of `StateMachine.executePhase`
  (retry / auto-transition) is made total with an explicit fuel argument;
  running out of fuel yields the distinguished error `SMError.fuelOut`,
  which no source-level code path produces.
* Task results are modelled with the two fields the in-scope code ever
  reads back (`status`, `completedBy`); the remaining payload fields
  (timestamps, outputs, notes, …) are write-only in the source.
-/

/-- Task lifecycle states (`TaskState` in StateMachineTypes). -/
inductive TaskState where
  | pending
  | running
  | completed
  | failed
  | skipped
deriving DecidableEq

/-- Phase lifecycle states (`PhaseState` in StateMachineTypes). -/
inductive PhaseState where
  | pending
  | active
  | completed
  | failed
  | skipped
  | rolled_back
deriving DecidableEq

/-- Workflow machine states (`MachineState` in StateMachineTypes). -/
inductive MachineState where
  | idle
  | running
  | paused
  | completed
  | failed
deriving DecidableEq

/-- The run-time control flags `TaskExecutor` reads out of the untyped
`metadata` record. -/
structure Metadata where
  completedTasks : Option (List String) := none
  approvedReviews : Option (List String) := none
  approvedTasks : Option (List String) := none
  autoApprove : Option Bool := none
  approvalDecisions : Option (List (String × Bool)) := none
deriving DecidableEq

/-- The fields of a task result that the in-scope code reads back
(`validateTaskResult` inspects `status` and `completedBy`; everything else
in the source result objects is write-only). -/
structure TaskResult where
  status : String
  completedBy : Option String := none
deriving DecidableEq

/-- A task of a phase definition (`ISDLCTask`). -/
structure TaskDef where
  id : String
  taskType : String
  required : Bool
  dependencies : List String := []
  assignee : Option String := none
deriving DecidableEq

/-- A phase of a workflow definition (`ISDLCPhase`). -/
structure PhaseDef where
  id : String
  tasks : List TaskDef := []
  nextPhases : List String := []
  exitConditions : List String := []
  deliverables : List String := []
deriving DecidableEq

/-- A transition of a workflow definition (`ISDLCTransition`); the source
field `from` is a Lean keyword and is rendered `fromPhase`. -/
structure TransitionDef where
  fromPhase : String
  toPhase : String
  conditions : List String := []
  requiresApproval : Bool := false
deriving DecidableEq

/-- A workflow definition (`ISDLCWorkflow`). -/
structure WorkflowDef where
  id : String
  name : String
  initialPhase : String
  phases : List PhaseDef
  transitions : List TransitionDef := []
deriving DecidableEq

/-- The one exception hierarchy of the source, flattened: the base
`StateMachineError (message, code)`, `TransitionError (message, from, to)`,
`PhaseExecutionError (message, phaseId, context)` whose context carries the
failed and pending task-id arrays, plain `new Error(msg)`, and the
model-only `fuelOut`. -/
inductive SMError where
  | stateMachineError (message : String) (code : String)
  | transitionError (message : String) (fromPhase : String) (toPhase : String)
  | phaseExecutionError (message : String) (phaseId : String)
      (failedTasks : List String) (pendingTasks : List String)
  | jsError (message : String)
  | fuelOut
deriving DecidableEq

/-- `ITaskInstance`. -/
structure TaskInstance where
  taskId : String
  state : TaskState
  startedAt : Option Unit := none
  completedAt : Option Unit := none
  result : Option TaskResult := none
  error : Option SMError := none
  retryCount : Nat := 0
deriving DecidableEq

/-- `IPhaseInstance`. -/
structure PhaseInstance where
  phaseId : String
  state : PhaseState
  taskStates : List (String × TaskInstance) := []
  startedAt : Option Unit := none
  completedAt : Option Unit := none
  error : Option SMError := none
  retryCount : Nat := 0
deriving DecidableEq

/-- `IWorkflowInstance`. -/
structure WorkflowInstance where
  id : String
  workflowId : String
  name : String
  state : MachineState
  currentPhaseId : Option String
  phaseStates : List (String × PhaseInstance)
  completedAt : Option Unit := none
  error : Option SMError := none
  metadata : Option Metadata := none
deriving DecidableEq

/-- `Map.get`: first binding of the key, if any. -/
def alLookup {α : Type} (m : List (String × α)) (k : String) : Option α :=
  match m with
  | [] => none
  | (k', v) :: rest => if k' = k then some v else alLookup rest k

/-- `Map.set`: update the existing binding in place, else append. -/
def alSet {α : Type} (m : List (String × α)) (k : String) (v : α) :
    List (String × α) :=
  match m with
  | [] => [(k, v)]
  | (k', v') :: rest =>
      if k' = k then (k, v) :: rest else (k', v') :: alSet rest k v

/-- JavaScript `x || d` for an optional string: `undefined` and the empty
string are falsy. -/
def jsOrStr (x : Option String) (d : String) : String :=
  match x with
  | none => d
  | some s => if s = "" then d else s

namespace TaskExecutor

/-- `executeAutomatedTask` (TaskExecutor.ts): always resolves with
`status: 'success'`. -/
def executeAutomatedTask (_md : Option Metadata) (_task : TaskDef) : TaskResult :=
  { status := "success" }

/-- `executeManualTask`: pre-completed via `metadata.completedTasks`
resolves attributed to the assignee or `system`; otherwise to the assignee
or `unknown`. -/
def executeManualTask (md : Option Metadata) (task : TaskDef) : TaskResult :=
  let completedTasks := md.bind (·.completedTasks)
  match completedTasks with
  | some l =>
      if l.contains task.id then
        { status := "success", completedBy := some (jsOrStr task.assignee "system") }
      else
        { status := "success", completedBy := some (jsOrStr task.assignee "unknown") }
  | none =>
      { status := "success", completedBy := some (jsOrStr task.assignee "unknown") }

/-- `executeReviewTask`: always resolves with `status: 'approved'`. -/
def executeReviewTask (_md : Option Metadata) (_task : TaskDef) : TaskResult :=
  { status := "approved" }

/-- `executeApprovalTask`: auto-approved when `metadata.autoApprove` is true
or the id is listed in `metadata.approvedTasks`; otherwise approved unless
`metadata.approvalDecisions[taskId]` is explicitly `false`. -/
def executeApprovalTask (md : Option Metadata) (task : TaskDef) : TaskResult :=
  let autoApprove := md.bind (·.autoApprove)
  let approvedTasks := md.bind (·.approvedTasks)
  if autoApprove = some true ∨ (approvedTasks.getD []).contains task.id then
    { status := "approved" }
  else
    let decisions := md.bind (·.approvalDecisions)
    let approved := ¬ (alLookup (decisions.getD []) task.id = some false)
    if approved then { status := "approved" } else { status := "rejected" }

/-- `executeTask`: dispatch on the task's declared type; unknown types are
treated as manual.  The simulated task executors of the source never
reject, so the result is total. -/
def executeTask (md : Option Metadata) (task : TaskDef) : TaskResult :=
  match task.taskType with
  | "automated" => executeAutomatedTask md task
  | "manual" => executeManualTask md task
  | "review" => executeReviewTask md task
  | "approval" => executeApprovalTask md task
  | _ => executeManualTask md task

/-- Truthiness of the `completedBy` field as JavaScript sees it:
`undefined` and `""` are falsy. -/
def truthyCompletedBy (x : Option String) : Bool :=
  match x with
  | none => false
  | some s => s ≠ ""

/-- `validateTaskResult` (TaskExecutor.ts lines 206-238): false without a
result; otherwise a per-type shape check on the stored result. -/
def validateTaskResult (task : TaskDef) (ti : TaskInstance) : Bool :=
  match ti.result with
  | none => false
  | some r =>
      match task.taskType with
      | "automated" => r.status = "success"
      | "manual" => r.status = "success" ∧ truthyCompletedBy r.completedBy
      | "review" => r.status = "approved" ∨ r.status = "passed"
      | "approval" => r.status = "approved"
      | _ => r.status = "success" ∨ r.status = "completed"

end TaskExecutor

namespace PhaseExecutor

/-- JavaScript `Set.add`: append the id unless already present. -/
def insertId (l : List String) (x : String) : List String :=
  if l.contains x then l else l ++ [x]

/-- Step 1 of `executePhase`: ensure a pending `TaskInstance` exists for
every declared task (idempotent, never resets an existing instance). -/
def initTaskStates (tasks : List TaskDef) (ts : List (String × TaskInstance)) :
    List (String × TaskInstance) :=
  match tasks with
  | [] => ts
  | t :: rest =>
      let ts' :=
        match alLookup ts t.id with
        | some _ => ts
        | none => alSet ts t.id { taskId := t.id, state := .pending, retryCount := 0 }
      initTaskStates rest ts'

/-- The scheduler's bookkeeping: the executed and failed id sets, the task
instances being mutated, and the order in which tasks were started. -/
structure SchedState where
  taskStates : List (String × TaskInstance)
  executed : List String
  failed : List String
  trace : List String
deriving DecidableEq

/-- A task not yet in the executed or failed sets. -/
def unresolvedB (st : SchedState) (t : TaskDef) : Bool :=
  !(st.executed.contains t.id) && !(st.failed.contains t.id)

/-- The executable frontier: unresolved tasks whose every declared
dependency id is in the executed set. -/
def frontierOf (phase : PhaseDef) (st : SchedState) : List TaskDef :=
  phase.tasks.filter (fun t =>
    unresolvedB st t && t.dependencies.all (fun d => st.executed.contains d))

/-- `PhaseExecutor.executeTask` for one task: mark the instance running
with a start timestamp, call the task executor, and record completion or
failure; the boolean reports whether the underlying promise fulfilled. -/
def execOne (tx : TaskDef → Except SMError TaskResult)
    (ts : List (String × TaskInstance)) (t : TaskDef) :
    List (String × TaskInstance) × Bool :=
  match alLookup ts t.id with
  | none => (ts, false)
  | some ti =>
      match tx t with
      | .ok r =>
          (alSet ts t.id
            { ti with
              state := .completed, startedAt := some (),
              completedAt := some (), result := some r }, true)
      | .error e =>
          (alSet ts t.id
            { ti with
              state := .failed, startedAt := some (),
              completedAt := some (), error := some e }, false)

/-- `Promise.allSettled` over one frontier, sequentialized in list order;
returns the settled outcomes in the same order. -/
def runTasks (tx : TaskDef → Except SMError TaskResult)
    (ts : List (String × TaskInstance)) :
    List TaskDef → List (String × TaskInstance) × List (TaskDef × Bool)
  | [] => (ts, [])
  | t :: rest =>
      let (ts', b) := execOne tx ts t
      let (ts'', os) := runTasks tx ts' rest
      (ts'', (t, b) :: os)

/-- Mark a task instance skipped (failure of a non-required task). -/
def skipTask (ts : List (String × TaskInstance)) (id : String) :
    List (String × TaskInstance) :=
  match alLookup ts id with
  | some ti => alSet ts id { ti with state := .skipped }
  | none => ts

/-- The `results.forEach` classification: fulfilled → executed set;
rejected and required → failed set; rejected and not required → instance
skipped and id added to the executed set. -/
def settle : List (TaskDef × Bool) → List (String × TaskInstance) →
    List String → List String →
    List (String × TaskInstance) × List String × List String
  | [], ts, ex, fl => (ts, ex, fl)
  | (t, b) :: rest, ts, ex, fl =>
      if b then settle rest ts (insertId ex t.id) fl
      else if t.required then settle rest ts ex (insertId fl t.id)
      else settle rest (skipTask ts t.id) (insertId ex t.id) fl

/-- One iteration of the scheduling loop on a non-empty frontier. -/
def stepBatch (tx : TaskDef → Except SMError TaskResult)
    (fr : List TaskDef) (st : SchedState) : SchedState :=
  let (ts1, outs) := runTasks tx st.taskStates fr
  let (ts2, ex2, fl2) := settle outs ts1 st.executed st.failed
  { taskStates := ts2, executed := ex2, failed := fl2,
    trace := st.trace ++ fr.map (·.id) }

/-- Message of the cycle/deadlock detector throw site. -/
def schedulingMsg : String :=
  "Cannot execute remaining tasks due to unsatisfied dependencies"

/-- Message of the required-task-failures throw site. -/
def requiredFailMsg : String :=
  "Phase execution failed due to required task failures"

/-- Message of the completion-validation throw site. -/
def completionMsg : String := "Phase completion validation failed"

/-- The `while` loop of `executePhase` (PhaseExecutor.ts lines 347-410),
made total by fuel; the source loop always terminates because every
iteration resolves at least one task. -/
def phaseLoop (tx : TaskDef → Except SMError TaskResult) (phase : PhaseDef) :
    Nat → SchedState → Except SMError Unit × SchedState
  | 0, st => (.error .fuelOut, st)
  | Nat.succ fuel, st =>
      if st.executed.length + st.failed.length < phase.tasks.length then
        let fr := frontierOf phase st
        if fr.isEmpty then
          let pending := phase.tasks.filter (fun t => unresolvedB st t)
          if pending.isEmpty then (.ok (), st)
          else
            (.error (.phaseExecutionError schedulingMsg phase.id
              st.failed (pending.map (·.id))), st)
        else phaseLoop tx phase fuel (stepBatch tx fr st)
      else (.ok (), st)

/-- `validatePhaseCompletion`: every required task's instance is
`completed`; exit conditions and deliverables are advisory in the source
(logged, always accepted). -/
def validatePhaseCompletion (phase : PhaseDef)
    (ts : List (String × TaskInstance)) : Bool :=
  (phase.tasks.filter (·.required)).all (fun t =>
    match alLookup ts t.id with
    | some ti => ti.state = .completed
    | none => false)

/-- `executePhase` (PhaseExecutor.ts lines 321-433): initialize task
instances, run the scheduling loop, then the failed-set check and the
completion validation.  Returns the thrown error or success, the mutated
phase instance, and the scheduler bookkeeping (whose trace records the
order in which tasks were started). -/
def executePhase (tx : TaskDef → Except SMError TaskResult)
    (phase : PhaseDef) (pi : PhaseInstance) :
    Except SMError Unit × PhaseInstance × SchedState :=
  let ts0 := initTaskStates phase.tasks pi.taskStates
  let st0 : SchedState := { taskStates := ts0, executed := [], failed := [], trace := [] }
  match phaseLoop tx phase (phase.tasks.length + 1) st0 with
  | (.error e, st) => (.error e, { pi with taskStates := st.taskStates }, st)
  | (.ok _, st) =>
      if st.failed.isEmpty then
        if validatePhaseCompletion phase st.taskStates then
          (.ok (), { pi with taskStates := st.taskStates }, st)
        else
          (.error (.phaseExecutionError completionMsg phase.id [] []),
            { pi with taskStates := st.taskStates }, st)
      else
        (.error (.phaseExecutionError requiredFailMsg phase.id st.failed []),
          { pi with taskStates := st.taskStates }, st)

/-- `rollbackPhase` (PhaseExecutor.ts lines 522-548): mark the phase
rolled back and reset every completed task instance to pending, clearing
its result and error. -/
def rollbackPhase (pi : PhaseInstance) : PhaseInstance :=
  { pi with
    state := .rolled_back,
    taskStates := pi.taskStates.map (fun e =>
      if e.2.state = .completed then
        (e.1, { e.2 with state := .pending, result := none, error := none })
      else e) }

end PhaseExecutor

namespace StateMachine

/-- `IStateMachineConfig` (the options the state machine itself reads). -/
structure SMConfig where
  enablePersistence : Bool := true
  enableRetries : Bool := true
  maxRetries : Nat := 3
  retryDelay : Nat := 1000
deriving DecidableEq

/-- `this.config.maxRetries || 3`: a configured `0` (or an absent value)
is falsy in JavaScript and falls back to the default `3`. -/
def effectiveMaxRetries (cfg : SMConfig) : Nat :=
  if cfg.maxRetries = 0 then 3 else cfg.maxRetries

/-- `ITransitionContext` as handed to the transition validator. -/
structure TransitionCtx where
  workflowInstance : WorkflowInstance
  fromPhase : PhaseDef
  toPhase : PhaseDef
  transition : TransitionDef
  metadata : Option Metadata

/-- The collaborators injected into `StateMachine`: the definition
provider (`IPhaseManager`), the transition validator, and the phase
executor.  Persistence has no observable state in the core and is a no-op
here. -/
structure Env where
  getWorkflow : String → Option WorkflowDef
  getPhase : String → String → Option PhaseDef
  getAvailableTransitions : String → String → List TransitionDef
  canTransition : TransitionCtx → Bool
  runPhase : WorkflowInstance → PhaseDef → PhaseInstance → Option Metadata →
    Except SMError Unit × PhaseInstance

/-- The in-memory instance table `this.instances`. -/
abbrev SMState := List (String × WorkflowInstance)

/-- The empty metadata record `{}`. -/
def emptyMetadata : Metadata := {}

/-- `instance.metadata || {}`. -/
def jsMetaOr (md : Option Metadata) : Metadata := md.getD emptyMetadata

/-- `completeWorkflow` (StateMachine.ts lines 322-334): silently returns
when the instance is unknown; otherwise marks it completed. -/
def smCompleteWorkflow (s : SMState) (instanceId : String) : SMState :=
  match alLookup s instanceId with
  | none => s
  | some inst =>
      alSet s instanceId { inst with state := .completed, completedAt := some () }

/-- `failWorkflow` (StateMachine.ts lines 339-352): silently returns when
the instance is unknown; otherwise marks it failed with the error. -/
def smFailWorkflow (s : SMState) (instanceId : String) (e : SMError) : SMState :=
  match alLookup s instanceId with
  | none => s
  | some inst =>
      alSet s instanceId
        { inst with state := .failed, completedAt := some (), error := some e }

/-- The `catch` block of `executePhase` (StateMachine.ts lines 300-316)
minus the recursive retry call: mark the phase instance failed with the
error, then either (`inr`) increment the retry counter for a retry, or
(`inl`) fail the workflow.  The instance/phase-instance lookups mirror the
captured object references of the source; they cannot miss because
instances are never removed and `phaseStates` keys are fixed. -/
def smPhaseFailure (cfg : SMConfig) (s : SMState)
    (instanceId phaseId : String) (e : SMError) : SMState ⊕ SMState :=
  match alLookup s instanceId with
  | none => .inl s
  | some inst =>
      match alLookup inst.phaseStates phaseId with
      | none => .inl (smFailWorkflow s instanceId e)
      | some pi =>
          let pi1 := { pi with state := .failed, error := some e, completedAt := some () }
          let inst1 := { inst with phaseStates := alSet inst.phaseStates phaseId pi1 }
          let s1 := alSet s instanceId inst1
          if cfg.enableRetries ∧ pi1.retryCount < effectiveMaxRetries cfg then
            let pi2 := { pi1 with retryCount := pi1.retryCount + 1 }
            .inr (alSet s1 instanceId
              { inst1 with phaseStates := alSet inst1.phaseStates phaseId pi2 })
          else
            .inl (smFailWorkflow s1 instanceId e)

mutual

/-- `executePhase` (StateMachine.ts lines 242-317).  Returns the thrown
error or resolution, the updated instance table, and the chronological
list of phase ids handed to `phaseExecutor.executePhase` (the run log).
The preamble lookups throw; then the phase instance is marked active, the
phase executor runs, and `smAfterRun` finishes the `try`/`catch`. -/
def smExecutePhase (env : Env) (cfg : SMConfig) (fuel : Nat) (s : SMState)
    (instanceId phaseId : String) :
    Except SMError Unit × SMState × List String :=
  match fuel with
  | 0 => (.error .fuelOut, s, [])
  | fuel' + 1 =>
      match alLookup s instanceId with
      | none =>
          (.error (.stateMachineError "Workflow instance not found"
            "INSTANCE_NOT_FOUND"), s, [])
      | some inst =>
          match env.getPhase inst.workflowId phaseId with
          | none =>
              (.error (.stateMachineError "Phase not found" "PHASE_NOT_FOUND"), s, [])
          | some phase =>
              match alLookup inst.phaseStates phaseId with
              | none =>
                  (.error (.stateMachineError "Phase instance not found"
                    "PHASE_INSTANCE_NOT_FOUND"), s, [])
              | some pi =>
                  let pi1 := { pi with state := .active, startedAt := some () }
                  let inst1 := { inst with phaseStates := alSet inst.phaseStates phaseId pi1 }
                  let s1 := alSet s instanceId inst1
                  match env.runPhase inst1 phase pi1 inst1.metadata with
                  | (rpRes, pi2) =>
                      let inst2 := { inst1 with phaseStates := alSet inst1.phaseStates phaseId pi2 }
                      let s2 := alSet s1 instanceId inst2
                      smAfterRun env cfg fuel' s2 instanceId phaseId phase inst2 pi2 rpRes

/-- The remainder of `executePhase` after `phaseExecutor.executePhase`
settled with `res`: the success half of the `try` (mark completed, then
auto-transition to the first declared next phase or complete the
workflow), with every error routed into the `catch`
(`smHandleFailure`).  The source's `try` block spans the auto-transition,
so a throwing transition also lands in this frame's `catch`. -/
def smAfterRun (env : Env) (cfg : SMConfig) (fuel : Nat) (s2 : SMState)
    (instanceId phaseId : String) (phase : PhaseDef) (inst2 : WorkflowInstance)
    (pi2 : PhaseInstance) (res : Except SMError Unit) :
    Except SMError Unit × SMState × List String :=
  match fuel with
  | 0 => (.error .fuelOut, s2, [])
  | fuel' + 1 =>
      match res with
      | .ok _ =>
          let pi3 := { pi2 with state := PhaseState.completed, completedAt := some () }
          let inst3 := { inst2 with phaseStates := alSet inst2.phaseStates phaseId pi3 }
          let s3 := alSet s2 instanceId inst3
          match phase.nextPhases with
          | [] => (.ok (), smCompleteWorkflow s3 instanceId, [phaseId])
          | nextPhaseId :: _ =>
              if nextPhaseId = "" then (.ok (), s3, [phaseId])
              else
                match smTransitionToPhase env cfg fuel' s3 instanceId
                    nextPhaseId (some (jsMetaOr inst3.metadata)) with
                | (.ok _, s4, tlog) => (.ok (), s4, phaseId :: tlog)
                | (.error e, s4, tlog) =>
                    match smHandleFailure env cfg fuel' s4 instanceId phaseId e with
                    | (hres, s5, hlog) => (hres, s5, phaseId :: (tlog ++ hlog))
      | .error e =>
          match smHandleFailure env cfg fuel' s2 instanceId phaseId e with
          | (hres, s5, hlog) => (hres, s5, phaseId :: hlog)

/-- The `catch` block of `executePhase`: `smPhaseFailure` mutates the
state, then either the workflow is failed (the promise still resolves) or
the phase is re-executed; errors of the retry itself propagate. -/
def smHandleFailure (env : Env) (cfg : SMConfig) (fuel : Nat) (s : SMState)
    (instanceId phaseId : String) (e : SMError) :
    Except SMError Unit × SMState × List String :=
  match fuel with
  | 0 => (.error .fuelOut, s, [])
  | fuel' + 1 =>
      match smPhaseFailure cfg s instanceId phaseId e with
      | .inl sF => (.ok (), sF, [])
      | .inr sR => smExecutePhase env cfg fuel' sR instanceId phaseId

/-- `transitionToPhase` (StateMachine.ts lines 152-237): lookups and
validation first, then — only after the validator accepted — the outgoing
phase instance is marked completed, `currentPhaseId` moves, and the target
phase is executed. -/
def smTransitionToPhase (env : Env) (cfg : SMConfig) (fuel : Nat) (s : SMState)
    (instanceId targetPhaseId : String) (ctx : Option Metadata) :
    Except SMError Unit × SMState × List String :=
  match fuel with
  | 0 => (.error .fuelOut, s, [])
  | fuel' + 1 =>
      match alLookup s instanceId with
      | none =>
          (.error (.stateMachineError "Workflow instance not found"
            "INSTANCE_NOT_FOUND"), s, [])
      | some inst =>
          match inst.currentPhaseId with
          | none =>
              (.error (.stateMachineError "No current phase" "NO_CURRENT_PHASE"), s, [])
          | some currentPhaseId =>
              if currentPhaseId = "" then
                (.error (.stateMachineError "No current phase" "NO_CURRENT_PHASE"), s, [])
              else
                match env.getWorkflow inst.workflowId with
                | none =>
                    (.error (.stateMachineError "Workflow not found"
                      "WORKFLOW_NOT_FOUND"), s, [])
                | some _wf =>
                    match env.getPhase inst.workflowId currentPhaseId,
                        env.getPhase inst.workflowId targetPhaseId with
                    | some fromPhase, some toPhase =>
                        let transitions :=
                          env.getAvailableTransitions inst.workflowId currentPhaseId
                        match transitions.find? (fun t => t.toPhase == targetPhaseId) with
                        | none =>
                            (.error (.transitionError "No valid transition found"
                              currentPhaseId targetPhaseId), s, [])
                        | some transition =>
                            if env.canTransition
                                { workflowInstance := inst, fromPhase := fromPhase,
                                  toPhase := toPhase, transition := transition,
                                  metadata := ctx } then
                              let inst1 :=
                                match alLookup inst.phaseStates currentPhaseId with
                                | some cpi =>
                                    let cpi1 := { cpi with state := PhaseState.completed, completedAt := some () }
                                    let ps1 := alSet inst.phaseStates currentPhaseId cpi1
                                    { inst with phaseStates := ps1 }
                                | none => inst
                              let inst2 := { inst1 with currentPhaseId := some targetPhaseId }
                              let s1 := alSet s instanceId inst2
                              smExecutePhase env cfg fuel' s1 instanceId targetPhaseId
                            else
                              (.error (.transitionError "Transition validation failed"
                                currentPhaseId targetPhaseId), s, [])
                    | _, _ =>
                        (.error (.transitionError "Invalid phase reference"
                          currentPhaseId targetPhaseId), s, [])

end

/-- The `workflow.phases.forEach` loop of `startWorkflow` (lines 50-58):
bind one fresh pending `PhaseInstance` per phase, in declaration order. -/
def initialPhaseStatesFrom (phases : List PhaseDef)
    (m : List (String × PhaseInstance)) : List (String × PhaseInstance) :=
  match phases with
  | [] => m
  | p :: rest =>
      initialPhaseStatesFrom rest
        (alSet m p.id { phaseId := p.id, state := .pending, taskStates := [],
                        retryCount := 0 })

/-- Lines 47-69 of `startWorkflow`: the freshly created instance, with one
pending `PhaseInstance` per defined phase, machine state `running`, and the
definition's initial phase current.  `randomUUID()` is modelled by the
explicit `instanceId` argument. -/
def makeInstance (wf : WorkflowDef) (workflowId instanceId : String)
    (initialData : Option Metadata) : WorkflowInstance :=
  { id := instanceId
    workflowId := workflowId
    name := wf.name
    state := .running
    currentPhaseId := some wf.initialPhase
    phaseStates := initialPhaseStatesFrom wf.phases []
    metadata := initialData }

/-- `startWorkflow` (StateMachine.ts lines 38-82): fail when the
definition provider knows no such workflow; otherwise create and store the
instance, execute the initial phase synchronously, and return the (by
then possibly mutated) stored instance. -/
def smStartWorkflow (env : Env) (cfg : SMConfig) (fuel : Nat) (s : SMState)
    (workflowId instanceId : String) (initialData : Option Metadata) :
    Except SMError WorkflowInstance × SMState × List String :=
  match env.getWorkflow workflowId with
  | none =>
      (.error (.stateMachineError "Workflow not found" "WORKFLOW_NOT_FOUND"), s, [])
  | some wf =>
      let inst := makeInstance wf workflowId instanceId initialData
      let s1 := alSet s instanceId inst
      match smExecutePhase env cfg fuel s1 instanceId wf.initialPhase with
      | (.error e, s2, log) => (.error e, s2, log)
      | (.ok _, s2, log) =>
          match alLookup s2 instanceId with
          | some i => (.ok i, s2, log)
          | none =>
              (.error (.stateMachineError "Workflow instance not found"
                "INSTANCE_NOT_FOUND"), s2, log)

end StateMachine

namespace PhaseExecutor

/-- A task list in topological order: every declared dependency of a task
refers to a task appearing strictly earlier (`seen` accumulates the ids
already passed).  This decidable wellformedness predicate characterizes
the acyclic, fully-resolvable dependency graphs. -/
def depSortedB : List TaskDef → List String → Bool
  | [], _ => true
  | t :: rest, seen =>
      t.dependencies.all (fun d => seen.contains d) && depSortedB rest (seen ++ [t.id])

/-- The task ids of a phase. -/
def taskIds (phase : PhaseDef) : List String := phase.tasks.map (·.id)

/-- The scheduling-loop invariant tying the bookkeeping sets, the task
instances and the start trace together; established at loop entry and
preserved by every batch. -/
structure LoopInv (phase : PhaseDef) (tx : TaskDef → Except SMError TaskResult)
    (st : SchedState) : Prop where
  instExists : ∀ t ∈ phase.tasks, ∃ ti, alLookup st.taskStates t.id = some ti
  execTrace : ∀ id ∈ st.executed, id ∈ st.trace
  execIds : ∀ id ∈ st.executed, id ∈ taskIds phase
  failIds : ∀ id ∈ st.failed, id ∈ taskIds phase
  execNodup : st.executed.Nodup
  failNodup : st.failed.Nodup
  exFlDisj : ∀ id ∈ st.executed, id ∉ st.failed
  depExecuted : ∀ t ∈ phase.tasks, t.id ∈ st.trace → ∀ d ∈ t.dependencies, d ∈ st.executed
  depOrder : ∀ t ∈ phase.tasks, ∀ d ∈ t.dependencies, t.id ∈ st.trace →
      ∃ l₁ l₂, st.trace = l₁ ++ l₂ ∧ d ∈ l₁ ∧ t.id ∈ l₂
  execState : ∀ id ∈ st.executed, ∃ ti, alLookup st.taskStates id = some ti ∧
      (ti.state = .completed ∨ ti.state = .skipped)
  okCompleted : ∀ t ∈ phase.tasks, ∀ r, tx t = .ok r → t.id ∈ st.trace →
      ∃ ti, alLookup st.taskStates t.id = some ti ∧
        ti.state = .completed ∧ ti.result = some r
  errRequired : ∀ t ∈ phase.tasks, ∀ e, tx t = .error e → t.id ∈ st.trace →
      t.required = true → t.id ∈ st.failed
  errOptional : ∀ t ∈ phase.tasks, ∀ e, tx t = .error e → t.id ∈ st.trace →
      t.required = false → t.id ∈ st.executed ∧
        ∃ ti, alLookup st.taskStates t.id = some ti ∧ ti.state = .skipped
  failSpec : ∀ id ∈ st.failed, ∀ t ∈ phase.tasks, t.id = id →
      t.required = true ∧ ∃ e, tx t = .error e

end PhaseExecutor

/-! Concrete scenarios used by counterexamples and witnesses. -/

/-- A three-task chain A → B → C (B depends on A, C on B), listed out of
order to exercise the scheduler. -/
def chainPhase : PhaseDef :=
  { id := "chain"
    tasks := [
      { id := "C", taskType := "automated", required := true, dependencies := ["B"] },
      { id := "A", taskType := "automated", required := true },
      { id := "B", taskType := "automated", required := true, dependencies := ["A"] }] }

/-- The same three-task chain listed in topological order. -/
def chainSorted : PhaseDef :=
  { id := "cs"
    tasks := [
      { id := "A", taskType := "automated", required := true },
      { id := "B", taskType := "automated", required := true, dependencies := ["A"] },
      { id := "C", taskType := "automated", required := true, dependencies := ["B"] }] }

/-- A phase with one free task and a two-task dependency cycle. -/
def cyclePhase : PhaseDef :=
  { id := "cy"
    tasks := [
      { id := "X", taskType := "automated", required := true },
      { id := "Y", taskType := "automated", required := true, dependencies := ["Z"] },
      { id := "Z", taskType := "automated", required := true, dependencies := ["Y"] }] }

/-- A phase whose every task lies on a dependency cycle. -/
def allCyclePhase : PhaseDef :=
  { id := "ac"
    tasks := [
      { id := "Y", taskType := "automated", required := true, dependencies := ["Z"] },
      { id := "Z", taskType := "automated", required := true, dependencies := ["Y"] }] }

/-- A fresh active phase instance. -/
def freshPI (pid : String) : PhaseInstance := { phaseId := pid, state := .active }

/-- The real task executor as the scheduler's oracle: the simulated
executors never reject. -/
def realTx (md : Option Metadata) : TaskDef → Except SMError TaskResult :=
  fun t => .ok (TaskExecutor.executeTask md t)

/-- A required approval task. -/
def apTask : TaskDef := { id := "ap", taskType := "approval", required := true }

/-- A phase holding just the approval task. -/
def apPhase : PhaseDef := { id := "pa", tasks := [apTask] }

/-- Metadata explicitly rejecting the approval task. -/
def apMeta : Metadata := { approvalDecisions := some [("ap", false)] }

/-- An oracle that fails exactly on a given set of task ids. -/
def failOnTx (bad : List String) (e : SMError) : TaskDef → Except SMError TaskResult :=
  fun t => if t.id ∈ bad then .error e else .ok { status := "success" }

/-- A phase with a required task, plus an optional task that the oracle
`failOnTx ["opt"]` rejects, and a downstream task depending on it. -/
def optFailPhase : PhaseDef :=
  { id := "of"
    tasks := [
      { id := "opt", taskType := "automated", required := false },
      { id := "down", taskType := "automated", required := true, dependencies := ["opt"] }] }

/-- A phase whose only task is required and failing. -/
def reqFailPhase : PhaseDef :=
  { id := "rf", tasks := [{ id := "req", taskType := "automated", required := true }] }

/-- The workflow used by the state-machine scenarios: the initial phase
declares two next phases. -/
def wfTwoNext : WorkflowDef :=
  { id := "wf"
    name := "W"
    initialPhase := "p1"
    phases := [{ id := "p1", nextPhases := ["p2", "p3"] }, { id := "p2" }, { id := "p3" }]
    transitions := [{ fromPhase := "p1", toPhase := "p2" }, { fromPhase := "p1", toPhase := "p3" }] }

/-- A definition-provider environment serving `wfTwoNext`, with a
transition validator that always accepts and a phase executor mock that
always resolves (as the unit tests' `mockPhaseExecutor` does). -/
def envOkRun : StateMachine.Env :=
  { getWorkflow := fun i => if i = "wf" then some wfTwoNext else none
    getPhase := fun w p => if w = "wf" then wfTwoNext.phases.find? (fun ph => ph.id == p) else none
    getAvailableTransitions := fun w p =>
      if w = "wf" then wfTwoNext.transitions.filter (fun t => t.fromPhase == p) else []
    canTransition := fun _ => true
    runPhase := fun _ _ pi _ => (.ok (), pi) }

/-- The same environment with a phase executor mock that always rejects. -/
def envFailRun : StateMachine.Env :=
  { envOkRun with runPhase := fun _ _ pi _ => (.error (SMError.jsError "Persistent failure"), pi) }

/-- The same environment with a validator that always rejects. -/
def envNoValid : StateMachine.Env := { envOkRun with canTransition := fun _ => false }

/-- The same environment advertising no transitions. -/
def envNoTrans : StateMachine.Env := { envOkRun with getAvailableTransitions := fun _ _ => [] }

/-- The default configuration of the unit tests. -/
def cfgDefault : StateMachine.SMConfig := {}

/-- Retries enabled with `maxRetries` configured to `0`. -/
def cfgZeroRetries : StateMachine.SMConfig := { maxRetries := 0 }

/-- Retries disabled. -/
def cfgNoRetries : StateMachine.SMConfig := { enableRetries := false }

/-- Retries enabled with `maxRetries` configured to `2`. -/
def cfgTwoRetries : StateMachine.SMConfig := { maxRetries := 2 }

/-- A small running instance of `wfTwoNext` with pending phase instances
for `p1` and `p2`. -/
def c6Inst : WorkflowInstance :=
  { id := "i1", workflowId := "wf", name := "W", state := .running,
    currentPhaseId := some "p1",
    phaseStates := [("p1", { phaseId := "p1", state := .pending }),
                    ("p2", { phaseId := "p2", state := .pending })] }

/-- The `p1` phase of `wfTwoNext`, declaring two next phases. -/
def c6Phase1 : PhaseDef := { id := "p1", nextPhases := ["p2", "p3"] }

/-- An instance table holding one mid-workflow instance of `wfTwoNext`. -/
def stOne : StateMachine.SMState :=
  [("i1", { id := "i1", workflowId := "wf", name := "W", state := .running,
            currentPhaseId := some "p1",
            phaseStates := [("p1", { phaseId := "p1", state := .completed })] })]

/-- The intermediate states of the C6 scenario: the `p1` phase instance
after activation, the completed `p1`/`p2` instances, the mutated workflow
instances, and the final table after the auto-transition. -/
def c6PiAct : PhaseInstance := { phaseId := "p1", state := .active, startedAt := some () }

def c6Done1 : PhaseInstance :=
  { phaseId := "p1", state := .completed, taskStates := [], startedAt := some (),
    completedAt := some (), error := none, retryCount := 0 }

def c6Done2 : PhaseInstance :=
  { phaseId := "p2", state := .completed, taskStates := [], startedAt := some (),
    completedAt := some (), error := none, retryCount := 0 }

def c6Final : StateMachine.SMState :=
  [("i1", { id := "i1", workflowId := "wf", name := "W", state := .completed,
            currentPhaseId := some "p2",
            phaseStates := [("p1", c6Done1), ("p2", c6Done2)],
            completedAt := some (), error := none, metadata := none })]

def c6Inst1 : WorkflowInstance :=
  { c6Inst with phaseStates := alSet c6Inst.phaseStates "p1" c6PiAct }

def c6Inst2 : WorkflowInstance :=
  { c6Inst1 with phaseStates := alSet c6Inst1.phaseStates "p1" c6PiAct }

def c6Inst3 : WorkflowInstance :=
  { c6Inst2 with phaseStates := alSet c6Inst2.phaseStates "p1" c6Done1 }

def c6S3 : StateMachine.SMState :=
  alSet (alSet (alSet [("i1", c6Inst)] "i1" c6Inst1) "i1" c6Inst2) "i1" c6Inst3

/-!
## Theorems

General lemmas about the association-list operations, the task scheduler
and the state machine, followed by one theorem (plus counterexamples and
witnesses) per specification claim.
-/

theorem alLookup_alSet_self {α : Type} (m : List (String × α)) (k : String)
    (v : α) : alLookup (alSet m k v) k = some v := by
  induction m with
  | nil => simp [alSet, alLookup]
  | cons hd tl ih =>
      obtain ⟨k', v'⟩ := hd
      by_cases h : k' = k
      · simp [alSet, alLookup, h]
      · simp [alSet, alLookup, h, ih]

theorem alLookup_alSet_other {α : Type} (m : List (String × α))
    (k k' : String) (v : α) (h : k' ≠ k) :
    alLookup (alSet m k v) k' = alLookup m k' := by
  induction m with
  | nil => simp [alSet, alLookup, Ne.symm h]
  | cons hd tl ih =>
      obtain ⟨k₀, v₀⟩ := hd
      by_cases h₀ : k₀ = k
      · subst h₀
        simp [alSet, alLookup, Ne.symm h]
      · simp [alSet, alLookup, h₀, ih]

theorem alSet_keys {α : Type} (m : List (String × α)) (k : String) (v : α)
    (h : alLookup m k ≠ none) :
    (alSet m k v).map Prod.fst = m.map Prod.fst := by
  induction m with
  | nil => simp [alLookup] at h
  | cons hd tl ih =>
      obtain ⟨k₀, v₀⟩ := hd
      by_cases h₀ : k₀ = k
      · simp [alSet, h₀]
      · simp [alLookup, h₀] at h
        simp [alSet, h₀, ih h]

/-- C8, counterexample: for an `automated` task, a result with status
`completed` is rejected by `validateTaskResult` (the code requires
`success` exactly), contradicting the claim that automated tasks accept
`success` or `completed`. -/
theorem c8_counterexample :
    TaskExecutor.validateTaskResult
      { id := "t", taskType := "automated", required := true }
      { taskId := "t", state := .completed, result := some { status := "completed" } }
      = false := by
  decide

/-- C8 (amended): `validateTaskResult` is false without a result;
otherwise automated requires status exactly `success`; manual requires
`success` plus a non-empty `completedBy`; review accepts `approved` or
`passed`; approval requires `approved`; unknown/default types accept
`success` or `completed`. -/
theorem c8_validateTaskResult_rules (task : TaskDef) (ti : TaskInstance) :
    TaskExecutor.validateTaskResult task ti = true ↔
      ∃ r, ti.result = some r ∧
        ((task.taskType = "automated" ∧ r.status = "success") ∨
         (task.taskType = "manual" ∧ r.status = "success" ∧
           ∃ s, r.completedBy = some s ∧ s ≠ "") ∨
         (task.taskType = "review" ∧ (r.status = "approved" ∨ r.status = "passed")) ∨
         (task.taskType = "approval" ∧ r.status = "approved") ∨
         (task.taskType ≠ "automated" ∧ task.taskType ≠ "manual" ∧
          task.taskType ≠ "review" ∧ task.taskType ≠ "approval" ∧
          (r.status = "success" ∨ r.status = "completed"))) := by
  cases hres : ti.result with
  | none => simp [TaskExecutor.validateTaskResult, hres]
  | some r =>
      by_cases h1 : task.taskType = "automated"
      · simp [TaskExecutor.validateTaskResult, hres, h1]
      · by_cases h2 : task.taskType = "manual"
        · cases hc : r.completedBy with
          | none =>
              simp [TaskExecutor.validateTaskResult, TaskExecutor.truthyCompletedBy,
                hres, h1, h2, hc]
          | some s =>
              simp [TaskExecutor.validateTaskResult, TaskExecutor.truthyCompletedBy,
                hres, h1, h2, hc]
        · by_cases h3 : task.taskType = "review"
          · simp [TaskExecutor.validateTaskResult, hres, h1, h2, h3]
          · by_cases h4 : task.taskType = "approval"
            · simp [TaskExecutor.validateTaskResult, hres, h1, h2, h3, h4]
            · simp [TaskExecutor.validateTaskResult, hres, h1, h2, h3, h4]

/-- C8 witness: the rules instantiated on a concrete manual task whose
result carries a non-empty `completedBy`. -/
theorem c8_witness :
    TaskExecutor.validateTaskResult
      { id := "m", taskType := "manual", required := true }
      { taskId := "m", state := .completed,
        result := some { status := "success", completedBy := some "alice" } } = true := by
  exact (c8_validateTaskResult_rules
    { id := "m", taskType := "manual", required := true }
    { taskId := "m", state := .completed,
      result := some { status := "success", completedBy := some "alice" } }).mpr
    ⟨{ status := "success", completedBy := some "alice" }, rfl,
      Or.inr (Or.inl ⟨rfl, rfl, "alice", rfl, by decide⟩)⟩

/-- C9: `rollbackPhase` sets the phase instance to `rolled_back`, leaves
the phase retry counter and timestamps alone, maps every `completed` task
instance to a `pending` one with result and error cleared (retry counter
and timestamps untouched), and leaves every task instance in any other
state unchanged. -/
theorem c9_rollbackPhase (pi : PhaseInstance) :
    (PhaseExecutor.rollbackPhase pi).state = .rolled_back ∧
    (PhaseExecutor.rollbackPhase pi).phaseId = pi.phaseId ∧
    (PhaseExecutor.rollbackPhase pi).retryCount = pi.retryCount ∧
    (PhaseExecutor.rollbackPhase pi).startedAt = pi.startedAt ∧
    (PhaseExecutor.rollbackPhase pi).completedAt = pi.completedAt ∧
    (∀ e ∈ pi.taskStates, e.2.state ≠ .completed →
        e ∈ (PhaseExecutor.rollbackPhase pi).taskStates) ∧
    (∀ e ∈ pi.taskStates, e.2.state = .completed →
        (e.1, { e.2 with state := TaskState.pending, result := none, error := none }) ∈
          (PhaseExecutor.rollbackPhase pi).taskStates) ∧
    (∀ e' ∈ (PhaseExecutor.rollbackPhase pi).taskStates, ∃ e ∈ pi.taskStates,
        e'.1 = e.1 ∧ e'.2.retryCount = e.2.retryCount ∧
        e'.2.startedAt = e.2.startedAt ∧ e'.2.completedAt = e.2.completedAt) := by
  refine ⟨rfl, rfl, rfl, rfl, rfl, ?_, ?_, ?_⟩
  · intro e he hne
    have : e ∈ pi.taskStates.map (fun e =>
        if e.2.state = .completed then
          (e.1, { e.2 with state := TaskState.pending, result := none, error := none })
        else e) := by
      refine List.mem_map.mpr ⟨e, he, ?_⟩
      simp [hne]
    simpa [PhaseExecutor.rollbackPhase] using this
  · intro e he hc
    have : (e.1, { e.2 with state := TaskState.pending, result := none, error := none }) ∈
        pi.taskStates.map (fun e =>
          if e.2.state = .completed then
            (e.1, { e.2 with state := TaskState.pending, result := none, error := none })
          else e) := by
      refine List.mem_map.mpr ⟨e, he, ?_⟩
      simp [hc]
    simpa [PhaseExecutor.rollbackPhase] using this
  · intro e' he'
    simp only [PhaseExecutor.rollbackPhase, List.mem_map] at he'
    obtain ⟨e, he, heq⟩ := he'
    refine ⟨e, he, ?_⟩
    by_cases hc : e.2.state = .completed
    · simp [hc] at heq
      subst heq
      exact ⟨rfl, rfl, rfl, rfl⟩
    · simp [hc] at heq
      subst heq
      exact ⟨rfl, rfl, rfl, rfl⟩

/-- C9 witness: rollback of a phase holding one completed and one failed
task instance. -/
theorem c9_witness :
    (PhaseExecutor.rollbackPhase
      { phaseId := "p", state := .failed, retryCount := 2,
        taskStates := [
          ("a", { taskId := "a", state := .completed, retryCount := 1,
                  result := some { status := "success" } }),
          ("b", { taskId := "b", state := .failed,
                  error := some (SMError.jsError "x") })] }).state = .rolled_back ∧
    ("a", { taskId := "a", state := TaskState.pending, retryCount := 1 }) ∈
      (PhaseExecutor.rollbackPhase
        { phaseId := "p", state := .failed, retryCount := 2,
          taskStates := [
            ("a", { taskId := "a", state := .completed, retryCount := 1,
                    result := some { status := "success" } }),
            ("b", { taskId := "b", state := .failed,
                    error := some (SMError.jsError "x") })] }).taskStates ∧
    ("b", { taskId := "b", state := TaskState.failed,
            error := some (SMError.jsError "x") }) ∈
      (PhaseExecutor.rollbackPhase
        { phaseId := "p", state := .failed, retryCount := 2,
          taskStates := [
            ("a", { taskId := "a", state := .completed, retryCount := 1,
                    result := some { status := "success" } }),
            ("b", { taskId := "b", state := .failed,
                    error := some (SMError.jsError "x") })] }).taskStates := by
  refine ⟨(c9_rollbackPhase _).1, ?_, ?_⟩
  · exact (c9_rollbackPhase _).2.2.2.2.2.2.1
      ("a", { taskId := "a", state := .completed, retryCount := 1,
              result := some { status := "success" } }) (by decide) (by decide)
  · exact (c9_rollbackPhase _).2.2.2.2.2.1
      ("b", { taskId := "b", state := .failed,
              error := some (SMError.jsError "x") }) (by decide) (by decide)

namespace StateMachine

/-- No code path of the state machine's phase execution surfaces a
`TransitionError` to its caller: transition errors raised by the
auto-transition are swallowed by the `catch` of the enclosing
`executePhase` frame (retried or converted into workflow failure). -/
theorem sm_no_transitionError (env : Env) (cfg : SMConfig) : ∀ fuel : Nat,
    (∀ s a b m f t, (smExecutePhase env cfg fuel s a b).1 ≠
        Except.error (SMError.transitionError m f t)) ∧
    (∀ s a b e m f t, (smHandleFailure env cfg fuel s a b e).1 ≠
        Except.error (SMError.transitionError m f t)) ∧
    (∀ s2 a b phase inst2 pi2 res m f t,
        (smAfterRun env cfg fuel s2 a b phase inst2 pi2 res).1 ≠
        Except.error (SMError.transitionError m f t)) := by
  intro fuel
  induction fuel with
  | zero =>
      refine ⟨?_, ?_, ?_⟩
      · intro s a b m f t
        simp [smExecutePhase]
      · intro s a b e m f t
        simp [smHandleFailure]
      · intro s2 a b phase inst2 pi2 res m f t
        simp [smAfterRun]
  | succ n ih =>
      obtain ⟨ihexec, ihhf, ihar⟩ := ih
      refine ⟨?_, ?_, ?_⟩
      · intro s a b m f t
        simp only [smExecutePhase]
        split
        · simp
        · split
          · simp
          · split
            · simp
            · exact ihar _ _ _ _ _ _ _ _ _ _
      · intro s a b e m f t
        rw [smHandleFailure]
        split
        · simp
        · exact ihexec _ _ _ _ _ _
      · intro s2 a b phase inst2 pi2 res m f t
        rw [smAfterRun.eq_def]
        cases res with
        | error e =>
            simp only []
            exact ihhf _ _ _ _ _ _ _
        | ok u =>
            simp only []
            cases hnp : phase.nextPhases with
            | nil => simp
            | cons np rest =>
                by_cases hne : np = ""
                · simp [hne]
                · simp only [hne, if_false]
                  split
                  · simp
                  · exact ihhf _ _ _ _ _ _ _

end StateMachine

/-- C7: when `transitionToPhase` fails because no definition transition to
the target exists from the current phase, or because the validator
rejects, it throws the corresponding `TransitionError` and returns with
the instance table — hence the instance, its machine state, its
`currentPhaseId` and every `PhaseInstance` — exactly as before the call
(and no phase was executed); moreover any `TransitionError` result of
`transitionToPhase`, on any path, leaves the table unchanged. -/
theorem c7_transition_failure_frame (env : StateMachine.Env)
    (cfg : StateMachine.SMConfig) (fuel : Nat) (s : StateMachine.SMState)
    (instanceId targetPhaseId : String) (ctx : Option Metadata)
    (inst : WorkflowInstance) (cur : String) (wf : WorkflowDef)
    (fromP toP : PhaseDef)
    (h1 : alLookup s instanceId = some inst)
    (h2 : inst.currentPhaseId = some cur) (hc : cur ≠ "")
    (h3 : env.getWorkflow inst.workflowId = some wf)
    (h4 : env.getPhase inst.workflowId cur = some fromP)
    (h5 : env.getPhase inst.workflowId targetPhaseId = some toP) :
    ((env.getAvailableTransitions inst.workflowId cur).find?
        (fun tr => tr.toPhase == targetPhaseId) = none →
      StateMachine.smTransitionToPhase env cfg (fuel+1) s instanceId targetPhaseId ctx =
        (.error (.transitionError "No valid transition found" cur targetPhaseId), s, [])) ∧
    (∀ transition,
      (env.getAvailableTransitions inst.workflowId cur).find?
        (fun tr => tr.toPhase == targetPhaseId) = some transition →
      env.canTransition { workflowInstance := inst, fromPhase := fromP,
                          toPhase := toP, transition := transition,
                          metadata := ctx } = false →
      StateMachine.smTransitionToPhase env cfg (fuel+1) s instanceId targetPhaseId ctx =
        (.error (.transitionError "Transition validation failed" cur targetPhaseId), s, [])) ∧
    (∀ (fuel' : Nat) (m f t : String),
      (StateMachine.smTransitionToPhase env cfg fuel' s instanceId targetPhaseId ctx).1 =
        Except.error (SMError.transitionError m f t) →
      (StateMachine.smTransitionToPhase env cfg fuel' s instanceId targetPhaseId ctx).2.1 = s) := by
  refine ⟨?_, ?_, ?_⟩
  · intro h6
    rw [StateMachine.smTransitionToPhase]
    simp [h1, h2, hc, h3, h4, h5, h6]
  · intro transition h6 h7
    rw [StateMachine.smTransitionToPhase]
    simp [h1, h2, hc, h3, h4, h5, h6, h7]
  · intro fuel' m f t h
    clear h1 h2 hc h3 h4 h5
    cases fuel' with
    | zero => simp [StateMachine.smTransitionToPhase] at h
    | succ n =>
        rw [StateMachine.smTransitionToPhase] at h ⊢
        cases h1 : alLookup s instanceId with
        | none => simp [h1]
        | some inst =>
            simp only [h1] at h ⊢
            cases h2 : inst.currentPhaseId with
            | none => simp [h2]
            | some cur =>
                simp only [h2] at h ⊢
                by_cases hcc : cur = ""
                · simp [hcc]
                · simp only [hcc, if_false] at h ⊢
                  cases h3 : env.getWorkflow inst.workflowId with
                  | none => simp [h3]
                  | some wf =>
                      simp only [h3] at h ⊢
                      cases h4 : env.getPhase inst.workflowId cur with
                      | none => simp [h4]
                      | some fromP =>
                          simp only [h4] at h ⊢
                          cases h5 : env.getPhase inst.workflowId targetPhaseId with
                          | none => simp [h5]
                          | some toP =>
                              simp only [h5] at h ⊢
                              cases h6 : (env.getAvailableTransitions inst.workflowId cur).find?
                                  (fun tr => tr.toPhase == targetPhaseId) with
                              | none => simp [h6]
                              | some transition =>
                                  simp only [h6] at h ⊢
                                  by_cases h7 : env.canTransition
                                      { workflowInstance := inst, fromPhase := fromP,
                                        toPhase := toP, transition := transition,
                                        metadata := ctx }
                                  · simp only [h7, if_true] at h ⊢
                                    exact absurd h
                                      ((StateMachine.sm_no_transitionError env cfg n).1 _ _ _ _ _ _)
                                  · simp [h7]

/-- C7 witness: with the validator rejecting (resp. no transitions
advertised), `transitionToPhase` throws and the instance table `stOne` is
returned untouched. -/
theorem c7_witness :
    StateMachine.smTransitionToPhase envNoValid cfgDefault 10 stOne "i1" "p2" none =
      (.error (.transitionError "Transition validation failed" "p1" "p2"), stOne, []) ∧
    StateMachine.smTransitionToPhase envNoTrans cfgDefault 10 stOne "i1" "p2" none =
      (.error (.transitionError "No valid transition found" "p1" "p2"), stOne, []) := by
  constructor
  · exact (c7_transition_failure_frame envNoValid cfgDefault 9 stOne "i1" "p2" none
      _ "p1" wfTwoNext { id := "p1", nextPhases := ["p2", "p3"] } { id := "p2" }
      rfl rfl (by decide) rfl rfl rfl).2.1
      { fromPhase := "p1", toPhase := "p2" } rfl rfl
  · exact (c7_transition_failure_frame envNoTrans cfgDefault 9 stOne "i1" "p2" none
      _ "p1" wfTwoNext { id := "p1", nextPhases := ["p2", "p3"] } { id := "p2" }
      rfl rfl (by decide) rfl rfl rfl).1 rfl

theorem alLookup_append {α : Type} (m₁ m₂ : List (String × α)) (k : String) :
    alLookup (m₁ ++ m₂) k =
      match alLookup m₁ k with
      | some v => some v
      | none => alLookup m₂ k := by
  induction m₁ with
  | nil => simp [alLookup]
  | cons hd tl ih =>
      obtain ⟨k₀, v₀⟩ := hd
      by_cases h : k₀ = k
      · simp [alLookup, h]
      · simp [alLookup, h, ih]

theorem alSet_of_not_mem {α : Type} (m : List (String × α)) (k : String) (v : α)
    (h : alLookup m k = none) : alSet m k v = m ++ [(k, v)] := by
  induction m with
  | nil => simp [alSet]
  | cons hd tl ih =>
      obtain ⟨k₀, v₀⟩ := hd
      by_cases h₀ : k₀ = k
      · simp [alLookup, h₀] at h
      · simp [alLookup, h₀] at h
        simp [alSet, h₀, ih h]

/-- Lookup in the phase-state table built by `makeInstance`: every phase
of the definition is bound to a fresh pending `PhaseInstance`. -/
theorem initialPhaseStatesFrom_lookup (phases : List PhaseDef) :
    ∀ (m : List (String × PhaseInstance)), ∀ p ∈ phases,
      alLookup (StateMachine.initialPhaseStatesFrom phases m) p.id =
      some { phaseId := p.id, state := .pending, taskStates := [], retryCount := 0 } := by
  induction phases with
  | nil => intro m p hp; simp at hp
  | cons q rest ih =>
      intro m p hp
      rw [StateMachine.initialPhaseStatesFrom]
      by_cases hmem : p.id ∈ rest.map (·.id)
      · obtain ⟨p', hp', hpid⟩ := List.mem_map.mp hmem
        have h := ih (alSet m q.id
          { phaseId := q.id, state := .pending, taskStates := [], retryCount := 0 })
          p' hp'
        rw [hpid] at h
        exact h
      · have hnotin : ∀ (mm : List (String × PhaseInstance)),
            alLookup (StateMachine.initialPhaseStatesFrom rest mm) p.id = alLookup mm p.id := by
          intro mm
          clear ih hp
          induction rest generalizing mm with
          | nil => rw [StateMachine.initialPhaseStatesFrom]
          | cons r rs ihr =>
              simp only [List.map_cons, List.mem_cons] at hmem
              push_neg at hmem
              rw [StateMachine.initialPhaseStatesFrom]
              rw [ihr (by simpa using hmem.2)]
              exact alLookup_alSet_other _ _ _ _ hmem.1
        rcases List.mem_cons.mp hp with hq | hr
        · subst hq
          rw [hnotin]
          exact alLookup_alSet_self _ _ _
        · exact absurd (List.mem_map.mpr ⟨p, hr, rfl⟩) hmem

/-- Keys of the phase-state table built by `makeInstance`: exactly the
definition's phase ids when those are distinct. -/
theorem initialPhaseStatesFrom_keys (phases : List PhaseDef)
    (hnd : (phases.map (·.id)).Nodup) :
    (StateMachine.initialPhaseStatesFrom phases []).map Prod.fst = phases.map (·.id) := by
  suffices h : ∀ (m : List (String × PhaseInstance)),
      (∀ i ∈ phases.map (·.id), alLookup m i = none) →
      (StateMachine.initialPhaseStatesFrom phases m).map Prod.fst =
        m.map Prod.fst ++ phases.map (·.id) by
    simpa using h [] (by intro i _; rw [alLookup])
  induction phases with
  | nil =>
      intro m _
      rw [StateMachine.initialPhaseStatesFrom]
      simp
  | cons q rest ih =>
      intro m hm
      rw [StateMachine.initialPhaseStatesFrom]
      have hqnone : alLookup m q.id = none := hm q.id (by simp)
      rw [alSet_of_not_mem m q.id _ hqnone]
      rw [ih (List.Nodup.of_cons (by simpa using hnd))]
      · simp
      · intro i hi
        rw [alLookup_append]
        have hne : q.id ≠ i := by
          simp only [List.map_cons, List.nodup_cons] at hnd
          intro hqi
          exact hnd.1 (hqi ▸ hi)
        rw [hm i (by simp [hi])]
        simp [alLookup, hne]

/-- C1: `startWorkflow` fails with `WORKFLOW_NOT_FOUND` when the
definition provider has no such workflow (leaving the table untouched);
otherwise the created instance is `running`, has `currentPhaseId` at the
definition's initial phase, carries the initial data, holds exactly one
pending `PhaseInstance` (retry counter 0) per defined phase, and the
initial phase is executed synchronously on the stored instance before
returning: the call's resulting table and run log are those of that
execution, errors of that execution propagate, and on resolution the
returned instance is the stored, post-execution one. -/
theorem c1_startWorkflow (env : StateMachine.Env) (cfg : StateMachine.SMConfig)
    (fuel : Nat) (s : StateMachine.SMState) (workflowId instanceId : String)
    (initialData : Option Metadata) :
    (env.getWorkflow workflowId = none →
      StateMachine.smStartWorkflow env cfg fuel s workflowId instanceId initialData =
        (.error (.stateMachineError "Workflow not found" "WORKFLOW_NOT_FOUND"), s, [])) ∧
    (∀ wf, env.getWorkflow workflowId = some wf →
      (StateMachine.makeInstance wf workflowId instanceId initialData).state =
        MachineState.running ∧
      (StateMachine.makeInstance wf workflowId instanceId initialData).currentPhaseId =
        some wf.initialPhase ∧
      (StateMachine.makeInstance wf workflowId instanceId initialData).metadata =
        initialData ∧
      ((wf.phases.map (·.id)).Nodup →
        (StateMachine.makeInstance wf workflowId instanceId
          initialData).phaseStates.map Prod.fst = wf.phases.map (·.id)) ∧
      (∀ p ∈ wf.phases,
        alLookup (StateMachine.makeInstance wf workflowId instanceId
            initialData).phaseStates p.id =
          some { phaseId := p.id, state := .pending, taskStates := [],
                 retryCount := 0 }) ∧
      ((StateMachine.smStartWorkflow env cfg fuel s workflowId instanceId
          initialData).2 =
        (StateMachine.smExecutePhase env cfg fuel
          (alSet s instanceId
            (StateMachine.makeInstance wf workflowId instanceId initialData))
          instanceId wf.initialPhase).2) ∧
      (∀ e, (StateMachine.smExecutePhase env cfg fuel
          (alSet s instanceId
            (StateMachine.makeInstance wf workflowId instanceId initialData))
          instanceId wf.initialPhase).1 = .error e →
        (StateMachine.smStartWorkflow env cfg fuel s workflowId instanceId
          initialData).1 = .error e) ∧
      (∀ (u : Unit) (i : WorkflowInstance),
        (StateMachine.smExecutePhase env cfg fuel
          (alSet s instanceId
            (StateMachine.makeInstance wf workflowId instanceId initialData))
          instanceId wf.initialPhase).1 = .ok u →
        alLookup (StateMachine.smExecutePhase env cfg fuel
          (alSet s instanceId
            (StateMachine.makeInstance wf workflowId instanceId initialData))
          instanceId wf.initialPhase).2.1 instanceId = some i →
        (StateMachine.smStartWorkflow env cfg fuel s workflowId instanceId
          initialData).1 = .ok i)) := by
  constructor
  · intro hw
    rw [StateMachine.smStartWorkflow]
    simp [hw]
  · intro wf hw
    refine ⟨rfl, rfl, rfl, ?_, ?_, ?_, ?_, ?_⟩
    · intro hnd
      exact initialPhaseStatesFrom_keys wf.phases hnd
    · intro p hp
      exact initialPhaseStatesFrom_lookup wf.phases [] p hp
    · rw [StateMachine.smStartWorkflow]
      simp only [hw]
      rcases hr : StateMachine.smExecutePhase env cfg fuel
          (alSet s instanceId
            (StateMachine.makeInstance wf workflowId instanceId initialData))
          instanceId wf.initialPhase with ⟨r1, r2, r3⟩
      cases r1 with
      | error e => simp
      | ok u =>
          cases hl : alLookup r2 instanceId with
          | none => simp [hl]
          | some i => simp [hl]
    · intro e hr
      rw [StateMachine.smStartWorkflow]
      simp only [hw]
      rcases hq : StateMachine.smExecutePhase env cfg fuel
          (alSet s instanceId
            (StateMachine.makeInstance wf workflowId instanceId initialData))
          instanceId wf.initialPhase with ⟨r1, r2, r3⟩
      rw [hq] at hr
      simp only [] at hr
      subst hr
      simp
    · intro u i hr hl
      rw [StateMachine.smStartWorkflow]
      simp only [hw]
      rcases hq : StateMachine.smExecutePhase env cfg fuel
          (alSet s instanceId
            (StateMachine.makeInstance wf workflowId instanceId initialData))
          instanceId wf.initialPhase with ⟨r1, r2, r3⟩
      rw [hq] at hr hl
      simp only [] at hr hl
      subst hr
      simp [hl]

/-- C1 witness: the theorem instantiated on the concrete environment
`envOkRun`: an unknown workflow id fails with `WORKFLOW_NOT_FOUND`; for
`wfTwoNext` the created instance is running at `p1` with the three pending
phase instances, and the call's outcome is that of the synchronous initial
phase execution. -/
theorem c1_witness :
    StateMachine.smStartWorkflow envOkRun cfgDefault 10 [] "nope" "i0" none =
      (.error (.stateMachineError "Workflow not found" "WORKFLOW_NOT_FOUND"), [], []) ∧
    (StateMachine.makeInstance wfTwoNext "wf" "i1" none).state = MachineState.running ∧
    (StateMachine.makeInstance wfTwoNext "wf" "i1" none).phaseStates.map Prod.fst =
      ["p1", "p2", "p3"] ∧
    alLookup (StateMachine.makeInstance wfTwoNext "wf" "i1" none).phaseStates "p2" =
      some { phaseId := "p2", state := .pending, taskStates := [], retryCount := 0 } ∧
    (StateMachine.smStartWorkflow envOkRun cfgDefault 10 [] "wf" "i1" none).2 =
      (StateMachine.smExecutePhase envOkRun cfgDefault 10
        (alSet [] "i1" (StateMachine.makeInstance wfTwoNext "wf" "i1" none))
        "i1" wfTwoNext.initialPhase).2 := by
  refine ⟨?_, ?_, ?_, ?_, ?_⟩
  · exact (c1_startWorkflow envOkRun cfgDefault 10 [] "nope" "i0" none).1 rfl
  · exact ((c1_startWorkflow envOkRun cfgDefault 10 [] "wf" "i1" none).2
      wfTwoNext rfl).1
  · have h := ((c1_startWorkflow envOkRun cfgDefault 10 [] "wf" "i1" none).2
      wfTwoNext rfl).2.2.2.1 (by decide)
    simpa using h
  · exact ((c1_startWorkflow envOkRun cfgDefault 10 [] "wf" "i1" none).2
      wfTwoNext rfl).2.2.2.2.1 { id := "p2" } (by decide)
  · exact ((c1_startWorkflow envOkRun cfgDefault 10 [] "wf" "i1" none).2
      wfTwoNext rfl).2.2.2.2.2.1

/-- C6 counterexample: phase `p1` of `wfTwoNext` declares *two* next
phases, yet after its successful execution the machine still
auto-transitions: the run log of `executePhase` shows `p2` was executed
right after `p1`, contradicting the claim that a successfully completed
phase with more than one next phase does not auto-transition. -/
theorem c6_counterexample :
    (envOkRun.getPhase "wf" "p1").map PhaseDef.nextPhases = some ["p2", "p3"] ∧
    (StateMachine.smExecutePhase envOkRun cfgDefault 8
        [("i1", c6Inst)] "i1" "p1").2.2 = ["p1", "p2"] := by
  refine ⟨rfl, ?_⟩
  simp [StateMachine.smExecutePhase, StateMachine.smAfterRun,
    StateMachine.smTransitionToPhase, StateMachine.smHandleFailure,
    StateMachine.smPhaseFailure, StateMachine.smCompleteWorkflow,
    StateMachine.smFailWorkflow, envOkRun, wfTwoNext, c6Inst, cfgDefault,
    alSet, alLookup, StateMachine.jsMetaOr, StateMachine.emptyMetadata,
    List.find?, List.filter]

/-- C6 (amended): after a phase completes successfully, the state machine
always auto-transitions to the *first* declared next phase whenever the
phase declares at least one (non-empty) next phase — regardless of how
many further next phases (`rest`) are declared and with no notion of an
explicit transition request; when the auto-transition succeeds, the
call's outcome is exactly that transition's outcome.  `inst1`/`inst2`,
`pi3`, `inst3` and `s3` name the intermediate mutation steps of
`executePhase` (mark active, store the executor's phase instance, mark
completed). -/
theorem c6_auto_transition (env : StateMachine.Env) (cfg : StateMachine.SMConfig)
    (fuel : Nat) (s : StateMachine.SMState) (instanceId phaseId : String)
    (inst : WorkflowInstance) (phase : PhaseDef) (pi : PhaseInstance)
    (nextPhaseId : String) (rest : List String) (pi1 : PhaseInstance)
    (inst1 inst2 : WorkflowInstance) (pi3 : PhaseInstance)
    (inst3 : WorkflowInstance) (s3 : StateMachine.SMState)
    (s' : StateMachine.SMState) (log : List String)
    (h1 : alLookup s instanceId = some inst)
    (h2 : env.getPhase inst.workflowId phaseId = some phase)
    (h3 : alLookup inst.phaseStates phaseId = some pi)
    (h4 : phase.nextPhases = nextPhaseId :: rest)
    (h5 : nextPhaseId ≠ "")
    (hpi1 : pi1 = { pi with state := PhaseState.active, startedAt := some () })
    (h6 : env.runPhase
        { inst with phaseStates := alSet inst.phaseStates phaseId pi1 }
        phase pi1 inst.metadata = (.ok (), pi1))
    (hinst1 : inst1 = { inst with phaseStates := alSet inst.phaseStates phaseId pi1 })
    (hinst2 : inst2 = { inst1 with phaseStates := alSet inst1.phaseStates phaseId pi1 })
    (hpi3 : pi3 = { pi1 with state := PhaseState.completed, completedAt := some () })
    (hinst3 : inst3 = { inst2 with phaseStates := alSet inst2.phaseStates phaseId pi3 })
    (hs3 : s3 = alSet (alSet (alSet s instanceId inst1) instanceId inst2) instanceId inst3)
    (htr : StateMachine.smTransitionToPhase env cfg fuel s3 instanceId nextPhaseId
        (some (StateMachine.jsMetaOr inst.metadata)) = (.ok (), s', log)) :
    StateMachine.smExecutePhase env cfg (fuel+2) s instanceId phaseId =
      (.ok (), s', phaseId :: log) := by
  subst hpi1 hinst1 hinst2 hpi3 hinst3 hs3
  rw [StateMachine.smExecutePhase]
  simp only [h1, h2, h3, h6]
  rw [StateMachine.smAfterRun]
  simp only [h4, h5, if_false]
  simp only [htr]

/-- C6 witness: the amended theorem instantiated on `c6Inst`/`envOkRun`
(two declared next phases): the machine ran `p1`, auto-transitioned to
the first declared next phase `p2`, ran it and completed the workflow. -/
theorem c6_witness :
    StateMachine.smExecutePhase envOkRun cfgDefault (6+2)
        [("i1", c6Inst)] "i1" "p1" = (.ok (), c6Final, "p1" :: ["p2"]) :=
  c6_auto_transition envOkRun cfgDefault 6 [("i1", c6Inst)] "i1" "p1"
    c6Inst c6Phase1 { phaseId := "p1", state := .pending } "p2" ["p3"] c6PiAct
    c6Inst1 c6Inst2 c6Done1 c6Inst3 c6S3 c6Final ["p2"]
    rfl rfl rfl rfl (by decide) (by simp [c6PiAct]) rfl
    (by simp [c6Inst1, c6Inst, c6PiAct]) (by simp [c6Inst2, c6Inst1])
    (by simp [c6Done1, c6PiAct]) (by simp [c6Inst3, c6Inst2])
    (by simp [c6S3])
    (by simp [StateMachine.smTransitionToPhase, StateMachine.smExecutePhase,
      StateMachine.smAfterRun, StateMachine.smHandleFailure,
      StateMachine.smPhaseFailure, StateMachine.smCompleteWorkflow,
      envOkRun, wfTwoNext, c6Inst, cfgDefault, c6PiAct, c6Done1, c6Done2, c6Final,
      c6Inst1, c6Inst2, c6Inst3, c6S3,
      alSet, alLookup, StateMachine.jsMetaOr, StateMachine.emptyMetadata,
      List.find?, List.filter])

namespace StateMachine

/-- One failing phase-execution attempt that does *not* retry (retries
disabled, or the retry counter has reached the effective maximum): the
call resolves after a single phase execution with the workflow failed and
the originating error recorded. -/
theorem smExecutePhase_attempt_stop (env : Env) (cfg : SMConfig) (e : SMError)
    (fuel : Nat) (s : SMState) (iid pid : String)
    (inst : WorkflowInstance) (pi : PhaseInstance) (phase : PhaseDef)
    (hRun : ∀ i ph p md, env.runPhase i ph p md = (.error e, p))
    (hI : alLookup s iid = some inst)
    (hP : env.getPhase inst.workflowId pid = some phase)
    (hpi : alLookup inst.phaseStates pid = some pi)
    (hstop : ¬(cfg.enableRetries = true ∧ pi.retryCount < effectiveMaxRetries cfg)) :
    ∃ (sF : SMState) (instF : WorkflowInstance) (piF : PhaseInstance),
      smExecutePhase env cfg (fuel+3) s iid pid = (.ok (), sF, [pid]) ∧
      alLookup sF iid = some instF ∧
      instF.workflowId = inst.workflowId ∧
      instF.state = .failed ∧ instF.error = some e ∧ instF.completedAt = some () ∧
      alLookup instF.phaseStates pid = some piF ∧
      piF.state = .failed ∧ piF.error = some e ∧
      piF.retryCount = pi.retryCount := by
  rw [smExecutePhase]
  simp only [hI, hP, hpi, hRun]
  rw [smAfterRun]
  simp only []
  rw [smHandleFailure]
  rw [smPhaseFailure]
  simp only [alLookup_alSet_self]
  rw [if_neg hstop]
  rw [smFailWorkflow]
  simp only [alLookup_alSet_self]
  exact ⟨_, _, _, rfl, alLookup_alSet_self _ _ _, rfl, rfl, rfl, rfl,
    alLookup_alSet_self _ _ _, rfl, rfl, rfl⟩

/-- One failing phase-execution attempt that retries: the retry counter
is incremented on the phase instance and the same phase is re-executed
with three fuel units consumed. -/
theorem smExecutePhase_attempt_retry (env : Env) (cfg : SMConfig) (e : SMError)
    (fuel : Nat) (s : SMState) (iid pid : String)
    (inst : WorkflowInstance) (pi : PhaseInstance) (phase : PhaseDef)
    (hRun : ∀ i ph p md, env.runPhase i ph p md = (.error e, p))
    (hI : alLookup s iid = some inst)
    (hP : env.getPhase inst.workflowId pid = some phase)
    (hpi : alLookup inst.phaseStates pid = some pi)
    (hcond : cfg.enableRetries = true)
    (hlt : pi.retryCount < effectiveMaxRetries cfg) :
    ∃ (sR : SMState) (instR : WorkflowInstance) (piR : PhaseInstance),
      smExecutePhase env cfg (fuel+3) s iid pid =
        (match smExecutePhase env cfg fuel sR iid pid with
         | (r, s5, l) => (r, s5, pid :: l)) ∧
      alLookup sR iid = some instR ∧
      instR.workflowId = inst.workflowId ∧
      alLookup instR.phaseStates pid = some piR ∧
      piR.retryCount = pi.retryCount + 1 ∧
      piR.state = .failed ∧ piR.error = some e := by
  rw [smExecutePhase]
  simp only [hI, hP, hpi, hRun]
  rw [smAfterRun]
  simp only []
  rw [smHandleFailure]
  rw [smPhaseFailure]
  simp only [alLookup_alSet_self]
  rw [if_pos ⟨hcond, hlt⟩]
  exact ⟨_, _, _, rfl, alLookup_alSet_self _ _ _, rfl,
    alLookup_alSet_self _ _ _, rfl, rfl, rfl⟩

/-- With retries enabled and a phase executor failing on every attempt,
a phase whose retry counter is `k` short of the effective maximum is
executed exactly `k+1` times, the counter ends at the maximum and the
workflow ends failed with the originating error. -/
theorem smExecutePhase_retry_exhaust (env : Env) (cfg : SMConfig) (e : SMError)
    (hRun : ∀ i ph p md, env.runPhase i ph p md = (.error e, p))
    (hRetries : cfg.enableRetries = true) :
    ∀ (k fuel : Nat) (s : SMState) (instanceId phaseId : String)
      (inst : WorkflowInstance) (pi : PhaseInstance) (phase : PhaseDef),
      alLookup s instanceId = some inst →
      env.getPhase inst.workflowId phaseId = some phase →
      alLookup inst.phaseStates phaseId = some pi →
      pi.retryCount + k = effectiveMaxRetries cfg →
      ∃ s' inst' pi',
        smExecutePhase env cfg (3 * k + 3 + fuel) s instanceId phaseId =
          (.ok (), s', List.replicate (k+1) phaseId) ∧
        alLookup s' instanceId = some inst' ∧
        inst'.workflowId = inst.workflowId ∧
        inst'.state = .failed ∧ inst'.error = some e ∧ inst'.completedAt = some () ∧
        alLookup inst'.phaseStates phaseId = some pi' ∧
        pi'.state = .failed ∧ pi'.error = some e ∧
        pi'.retryCount = effectiveMaxRetries cfg := by
  intro k
  induction k with
  | zero =>
      intro fuel s iid pid inst pi phase hI hP hpi hcnt
      have hstop : ¬(cfg.enableRetries = true ∧ pi.retryCount < effectiveMaxRetries cfg) := by
        rintro ⟨-, hlt⟩
        omega
      obtain ⟨sF, instF, piF, heq, hI', hW, hSt, hErr, hCAt, hpi', hSt', hErr', hRc⟩ :=
        smExecutePhase_attempt_stop env cfg e fuel s iid pid inst pi phase
          hRun hI hP hpi hstop
      refine ⟨sF, instF, piF, ?_, hI', hW, hSt, hErr, hCAt, hpi', hSt', hErr', ?_⟩
      · rw [show 3 * 0 + 3 + fuel = fuel + 3 by omega]
        exact heq
      · omega
  | succ k ih =>
      intro fuel s iid pid inst pi phase hI hP hpi hcnt
      obtain ⟨sR, instR, piR, heq, hIR, hWR, hpiR, hRcR, hStR, hErrR⟩ :=
        smExecutePhase_attempt_retry env cfg e (3 * k + 3 + fuel) s iid pid inst pi phase
          hRun hI hP hpi hRetries (by omega)
      obtain ⟨s', inst', pi', heq2, hI', hW, hSt, hErr, hCAt, hpi', hSt', hErr', hRc⟩ :=
        ih fuel sR iid pid instR piR phase hIR (by rw [hWR]; exact hP) hpiR (by omega)
      refine ⟨s', inst', pi', ?_, hI', hW.trans hWR, hSt, hErr, hCAt, hpi', hSt', hErr', hRc⟩
      have hfeq : 3 * (k+1) + 3 + fuel = (3 * k + 3 + fuel) + 3 := by omega
      rw [hfeq, heq, heq2]
      simp [List.replicate_succ]

end StateMachine

/-- C5 counterexample: with retries enabled and `maxRetries` configured
to `0`, the claim demands zero additional re-executions, but JavaScript's
`maxRetries || 3` treats the configured `0` as unset: the always-failing
phase `p1` is executed four times (one initial attempt plus three
retries) and its retry counter ends at 3. -/
theorem c5_counterexample :
    cfgZeroRetries.maxRetries = 0 ∧ cfgZeroRetries.enableRetries = true ∧
    ∃ s' inst' pi',
      StateMachine.smExecutePhase envFailRun cfgZeroRetries 12
          [("i1", c6Inst)] "i1" "p1" =
        (.ok (), s', ["p1", "p1", "p1", "p1"]) ∧
      alLookup s' "i1" = some inst' ∧ inst'.state = .failed ∧
      alLookup inst'.phaseStates "p1" = some pi' ∧ pi'.retryCount = 3 := by
  refine ⟨rfl, rfl, ?_⟩
  obtain ⟨s', inst', pi', heq, hI', hW, hSt, hErr, hCAt, hpi', hSt', hErr', hRc⟩ :=
    StateMachine.smExecutePhase_retry_exhaust envFailRun cfgZeroRetries
      (SMError.jsError "Persistent failure") (fun _ _ _ _ => rfl) rfl 3 0
      [("i1", c6Inst)] "i1" "p1" c6Inst { phaseId := "p1", state := .pending }
      c6Phase1 rfl rfl rfl (by decide)
  exact ⟨s', inst', pi', heq, hI', hSt, hpi', by rw [hRc]; rfl⟩

/-- C5 (amended): with retries enabled and `1 ≤ maxRetries`, an
always-failing phase (starting at retry counter 0) is re-executed exactly
`maxRetries` additional times — `maxRetries + 1` executions in all — with
the phase retry counter ending at `maxRetries`, before the workflow is
marked failed with the originating error; a configured `maxRetries` of
`0` is treated as unset by the source's `maxRetries || 3` and behaves as
`3`.  With retries disabled, the first failure is terminal: one
execution, workflow failed with the originating error. -/
theorem c5_retry_policy (env : StateMachine.Env) (cfg : StateMachine.SMConfig)
    (e : SMError) (fuel : Nat) (s : StateMachine.SMState) (iid pid : String)
    (inst : WorkflowInstance) (pi : PhaseInstance) (phase : PhaseDef)
    (hRun : ∀ i ph p md, env.runPhase i ph p md = (.error e, p))
    (hI : alLookup s iid = some inst)
    (hP : env.getPhase inst.workflowId pid = some phase)
    (hpi : alLookup inst.phaseStates pid = some pi)
    (hr0 : pi.retryCount = 0) :
    (cfg.enableRetries = true → 1 ≤ cfg.maxRetries →
      ∃ s' inst' pi',
        StateMachine.smExecutePhase env cfg (3 * cfg.maxRetries + 3 + fuel) s iid pid =
          (.ok (), s', List.replicate (cfg.maxRetries + 1) pid) ∧
        alLookup s' iid = some inst' ∧ inst'.state = .failed ∧ inst'.error = some e ∧
        alLookup inst'.phaseStates pid = some pi' ∧ pi'.state = .failed ∧
        pi'.retryCount = cfg.maxRetries) ∧
    (cfg.enableRetries = false →
      ∃ s' inst',
        StateMachine.smExecutePhase env cfg (fuel+3) s iid pid = (.ok (), s', [pid]) ∧
        alLookup s' iid = some inst' ∧ inst'.state = .failed ∧ inst'.error = some e) := by
  constructor
  · intro hen hge
    have heff : StateMachine.effectiveMaxRetries cfg = cfg.maxRetries := by
      rw [StateMachine.effectiveMaxRetries]
      rw [if_neg (by omega)]
    obtain ⟨s', inst', pi', heq, hI', hW, hSt, hErr, hCAt, hpi', hSt', hErr', hRc⟩ :=
      StateMachine.smExecutePhase_retry_exhaust env cfg e hRun hen cfg.maxRetries fuel
        s iid pid inst pi phase hI hP hpi (by omega)
    exact ⟨s', inst', pi', heq, hI', hSt, hErr, hpi', hSt', by rw [hRc, heff]⟩
  · intro hdis
    obtain ⟨sF, instF, piF, heq, hI', hW, hSt, hErr, hCAt, hpi', hSt', hErr', hRc⟩ :=
      StateMachine.smExecutePhase_attempt_stop env cfg e fuel s iid pid inst pi phase
        hRun hI hP hpi (by simp [hdis])
    exact ⟨sF, instF, heq, hI', hSt, hErr⟩

/-- C5 witness: the amended theorem instantiated on `envFailRun` and
`c6Inst`: with `maxRetries := 2` the phase runs three times; with retries
disabled it runs once. -/
theorem c5_witness :
    (∃ s' inst' pi',
      StateMachine.smExecutePhase envFailRun cfgTwoRetries 9
          [("i1", c6Inst)] "i1" "p1" =
        (.ok (), s', List.replicate 3 "p1") ∧
      alLookup s' "i1" = some inst' ∧ inst'.state = .failed ∧
      inst'.error = some (SMError.jsError "Persistent failure") ∧
      alLookup inst'.phaseStates "p1" = some pi' ∧ pi'.state = .failed ∧
      pi'.retryCount = 2) ∧
    (∃ s' inst',
      StateMachine.smExecutePhase envFailRun cfgNoRetries 3
          [("i1", c6Inst)] "i1" "p1" = (.ok (), s', ["p1"]) ∧
      alLookup s' "i1" = some inst' ∧ inst'.state = .failed ∧
      inst'.error = some (SMError.jsError "Persistent failure")) := by
  constructor
  · exact (c5_retry_policy envFailRun cfgTwoRetries
      (SMError.jsError "Persistent failure") 0 [("i1", c6Inst)] "i1" "p1" c6Inst
      { phaseId := "p1", state := .pending } c6Phase1 (fun _ _ _ _ => rfl)
      rfl rfl rfl rfl).1 rfl (by decide)
  · exact (c5_retry_policy envFailRun cfgNoRetries
      (SMError.jsError "Persistent failure") 0 [("i1", c6Inst)] "i1" "p1" c6Inst
      { phaseId := "p1", state := .pending } c6Phase1 (fun _ _ _ _ => rfl)
      rfl rfl rfl rfl).2 rfl

namespace PhaseExecutor

/-- Membership after a JavaScript-set insert. -/
theorem insertId_mem (l : List String) (x y : String) :
    y ∈ insertId l x ↔ y ∈ l ∨ y = x := by
  by_cases h : x ∈ l
  · have hc : l.contains x = true := by simpa using h
    rw [insertId, if_pos hc]
    exact ⟨Or.inl, fun hy => hy.elim id (fun he => he ▸ h)⟩
  · have hc : ¬ l.contains x = true := by simpa using h
    rw [insertId, if_neg hc]
    simp

/-- Inserting preserves duplicate-freeness. -/
theorem insertId_nodup (l : List String) (x : String) (h : l.Nodup) :
    (insertId l x).Nodup := by
  by_cases hc : x ∈ l
  · simpa [insertId, hc] using h
  · simp [insertId, hc, List.nodup_append, h]

/-- Inserting never shrinks the set. -/
theorem insertId_length_ge (l : List String) (x : String) :
    l.length ≤ (insertId l x).length := by
  by_cases hc : x ∈ l <;> simp [insertId, hc]

/-- Inserting a fresh id grows the set by one. -/
theorem insertId_length_fresh (l : List String) (x : String) (h : x ∉ l) :
    (insertId l x).length = l.length + 1 := by
  simp [insertId, h]

end PhaseExecutor

/-- Updating one binding preserves the presence of every key. -/
theorem alSet_presence {α : Type} (m : List (String × α)) (k : String) (v : α)
    (id : String) (h : ∃ u, alLookup m id = some u) :
    ∃ u, alLookup (alSet m k v) id = some u := by
  by_cases hk : id = k
  · exact ⟨v, hk ▸ alLookup_alSet_self m k v⟩
  · rw [alLookup_alSet_other m k id v hk]
    exact h

namespace PhaseExecutor

/-- `executeTask` on a single task leaves every other key's binding
untouched. -/
theorem execOne_lookup_other (tx : TaskDef → Except SMError TaskResult)
    (ts : List (String × TaskInstance)) (t : TaskDef) (id : String)
    (h : id ≠ t.id) :
    alLookup (execOne tx ts t).1 id = alLookup ts id := by
  rw [execOne]
  cases alLookup ts t.id with
  | none => rfl
  | some ti =>
      cases tx t with
      | ok r => exact alLookup_alSet_other ts t.id id _ h
      | error e => exact alLookup_alSet_other ts t.id id _ h

/-- `executeTask` preserves the presence of every key. -/
theorem execOne_presence (tx : TaskDef → Except SMError TaskResult)
    (ts : List (String × TaskInstance)) (t : TaskDef) (id : String)
    (h : ∃ u, alLookup ts id = some u) :
    ∃ u, alLookup (execOne tx ts t).1 id = some u := by
  rw [execOne]
  cases alLookup ts t.id with
  | none => exact h
  | some ti =>
      cases tx t with
      | ok r => exact alSet_presence ts t.id _ id h
      | error e => exact alSet_presence ts t.id _ id h

/-- A fulfilled `executeTask` marks the instance completed with the
result; a rejected one marks it failed; the boolean reports fulfilment. -/
theorem execOne_spec (tx : TaskDef → Except SMError TaskResult)
    (ts : List (String × TaskInstance)) (t : TaskDef) (ti : TaskInstance)
    (h : alLookup ts t.id = some ti) :
    ∃ ti', alLookup (execOne tx ts t).1 t.id = some ti' ∧
      ((∃ r, tx t = .ok r ∧ (execOne tx ts t).2 = true ∧
          ti'.state = .completed ∧ ti'.result = some r) ∨
       (∃ e, tx t = .error e ∧ (execOne tx ts t).2 = false ∧
          ti'.state = .failed)) := by
  rw [execOne, h]
  cases htx : tx t with
  | ok r =>
      exact ⟨_, alLookup_alSet_self _ _ _, Or.inl ⟨r, rfl, rfl, rfl, rfl⟩⟩
  | error e =>
      exact ⟨_, alLookup_alSet_self _ _ _, Or.inr ⟨e, rfl, rfl, rfl⟩⟩

/-- The batch runner leaves keys outside the batch untouched. -/
theorem runTasks_lookup_other (tx : TaskDef → Except SMError TaskResult) :
    ∀ (fr : List TaskDef) (ts : List (String × TaskInstance)) (id : String),
    id ∉ fr.map (·.id) →
    alLookup (runTasks tx ts fr).1 id = alLookup ts id := by
  intro fr
  induction fr with
  | nil => intro ts id _; rfl
  | cons t rest ih =>
      intro ts id hid
      simp only [List.map_cons, List.mem_cons, not_or] at hid
      rw [runTasks]
      simp only []
      rw [ih (execOne tx ts t).1 id hid.2]
      exact execOne_lookup_other tx ts t id hid.1

/-- The batch runner preserves the presence of every key. -/
theorem runTasks_presence (tx : TaskDef → Except SMError TaskResult) :
    ∀ (fr : List TaskDef) (ts : List (String × TaskInstance)) (id : String),
    (∃ u, alLookup ts id = some u) →
    ∃ u, alLookup (runTasks tx ts fr).1 id = some u := by
  intro fr
  induction fr with
  | nil => intro ts id h; exact h
  | cons t rest ih =>
      intro ts id h
      rw [runTasks]
      simp only []
      exact ih (execOne tx ts t).1 id (execOne_presence tx ts t id h)

/-- The settled outcomes are keyed exactly by the batch, in order. -/
theorem runTasks_outs_fst (tx : TaskDef → Except SMError TaskResult) :
    ∀ (fr : List TaskDef) (ts : List (String × TaskInstance)),
    ((runTasks tx ts fr).2).map Prod.fst = fr := by
  intro fr
  induction fr with
  | nil => intro ts; rfl
  | cons t rest ih =>
      intro ts
      rw [runTasks]
      simp only [List.map_cons]
      rw [ih]

/-- Each settled outcome's boolean reports whether its task's executor
call fulfilled. -/
theorem runTasks_outs_bool (tx : TaskDef → Except SMError TaskResult) :
    ∀ (fr : List TaskDef) (ts : List (String × TaskInstance)),
    (∀ t ∈ fr, ∃ u, alLookup ts t.id = some u) →
    ∀ p ∈ (runTasks tx ts fr).2, (p.2 = true ↔ ∃ r, tx p.1 = .ok r) := by
  intro fr
  induction fr with
  | nil => intro ts _ p hp; exact absurd hp (by simp [runTasks])
  | cons t rest ih =>
      intro ts hpres p hp
      rw [runTasks] at hp
      simp only [List.mem_cons] at hp
      rcases hp with rfl | hp
      · obtain ⟨ti, hti⟩ := hpres t (List.mem_cons_self t rest)
        rw [execOne, hti]
        cases htx : tx t with
        | ok r => simp [htx]
        | error e => simp [htx]
      · exact ih (execOne tx ts t).1
          (fun t' ht' => execOne_presence tx ts t t'.id (hpres t' (List.mem_cons_of_mem t ht')))
          p hp

/-- The final binding of each batch member: completed with the result on
fulfilment, failed on rejection (batch ids assumed distinct). -/
theorem runTasks_spec (tx : TaskDef → Except SMError TaskResult) :
    ∀ (fr : List TaskDef) (ts : List (String × TaskInstance)),
    (∀ t ∈ fr, ∃ u, alLookup ts t.id = some u) →
    (fr.map (·.id)).Nodup →
    ∀ t ∈ fr, ∃ ti, alLookup (runTasks tx ts fr).1 t.id = some ti ∧
      ((∃ r, tx t = .ok r ∧ ti.state = .completed ∧ ti.result = some r) ∨
       (∃ e, tx t = .error e ∧ ti.state = .failed)) := by
  intro fr
  induction fr with
  | nil => intro ts _ _ t ht; exact absurd ht (List.not_mem_nil t)
  | cons t0 rest ih =>
      intro ts hpres hnd t ht
      have hnd' : (rest.map (·.id)).Nodup := (List.nodup_cons.mp hnd).2
      rcases List.mem_cons.mp ht with rfl | hmem
      · obtain ⟨ti0, hti0⟩ := hpres t (List.mem_cons_self t rest)
        obtain ⟨ti', hl, hspec⟩ := execOne_spec tx ts t ti0 hti0
        have hnotin : t.id ∉ rest.map (·.id) := (List.nodup_cons.mp hnd).1
        rw [runTasks]
        simp only []
        rw [runTasks_lookup_other tx rest (execOne tx ts t).1 t.id hnotin, hl]
        refine ⟨ti', rfl, ?_⟩
        rcases hspec with ⟨r, htx, _, hs, hr⟩ | ⟨e, htx, _, hs⟩
        · exact Or.inl ⟨r, htx, hs, hr⟩
        · exact Or.inr ⟨e, htx, hs⟩
      · rw [runTasks]
        simp only []
        exact ih (execOne tx ts t0).1
          (fun t' ht' => execOne_presence tx ts t0 t'.id (hpres t' (List.mem_cons_of_mem t0 ht')))
          hnd' t hmem

end PhaseExecutor

namespace PhaseExecutor

/-- Skipping one task leaves every other key's binding untouched. -/
theorem skipTask_lookup_other (ts : List (String × TaskInstance))
    (id id' : String) (h : id' ≠ id) :
    alLookup (skipTask ts id) id' = alLookup ts id' := by
  rw [skipTask]
  cases alLookup ts id with
  | none => rfl
  | some ti => exact alLookup_alSet_other ts id id' _ h

/-- Skipping preserves the presence of every key. -/
theorem skipTask_presence (ts : List (String × TaskInstance))
    (id id' : String) (h : ∃ u, alLookup ts id' = some u) :
    ∃ u, alLookup (skipTask ts id) id' = some u := by
  rw [skipTask]
  cases alLookup ts id with
  | none => exact h
  | some ti => exact alSet_presence ts id _ id' h

/-- Skipping a present task marks its instance skipped. -/
theorem skipTask_spec (ts : List (String × TaskInstance)) (id : String)
    (ti : TaskInstance) (h : alLookup ts id = some ti) :
    alLookup (skipTask ts id) id = some { ti with state := .skipped } := by
  rw [skipTask, h]
  exact alLookup_alSet_self _ _ _

/-- Membership in the executed set after classifying a batch's outcomes:
the old set plus the ids of fulfilled or non-required outcomes. -/
theorem settle_ex_mem :
    ∀ (outs : List (TaskDef × Bool)) (ts : List (String × TaskInstance))
      (ex fl : List String) (id : String),
    id ∈ (settle outs ts ex fl).2.1 ↔
      id ∈ ex ∨ ∃ p ∈ outs, id = p.1.id ∧ (p.2 = true ∨ p.1.required = false) := by
  intro outs
  induction outs with
  | nil => intro ts ex fl id; simp [settle]
  | cons p rest ih =>
      obtain ⟨t, b⟩ := p
      intro ts ex fl id
      cases b
      · by_cases hr : t.required = true
        · rw [settle]
          simp only [Bool.false_eq_true, if_false, hr, if_true]
          rw [ih]
          simp [List.exists_mem_cons_iff, hr]
        · rw [settle]
          simp only [Bool.false_eq_true, if_false, hr]
          rw [ih, insertId_mem]
          have hr' : t.required = false := Bool.eq_false_iff.mpr hr
          simp [List.exists_mem_cons_iff, hr', or_assoc]
      · rw [settle]
        simp only [if_true]
        rw [ih, insertId_mem]
        simp [List.exists_mem_cons_iff, or_assoc]

/-- Membership in the failed set after classifying a batch's outcomes:
the old set plus the ids of rejected required outcomes. -/
theorem settle_fl_mem :
    ∀ (outs : List (TaskDef × Bool)) (ts : List (String × TaskInstance))
      (ex fl : List String) (id : String),
    id ∈ (settle outs ts ex fl).2.2 ↔
      id ∈ fl ∨ ∃ p ∈ outs, id = p.1.id ∧ p.2 = false ∧ p.1.required = true := by
  intro outs
  induction outs with
  | nil => intro ts ex fl id; simp [settle]
  | cons p rest ih =>
      obtain ⟨t, b⟩ := p
      intro ts ex fl id
      cases b
      · by_cases hr : t.required = true
        · rw [settle]
          simp only [Bool.false_eq_true, if_false, hr, if_true]
          rw [ih, insertId_mem]
          simp [List.exists_mem_cons_iff, hr, or_assoc]
        · rw [settle]
          simp only [Bool.false_eq_true, if_false, hr]
          rw [ih]
          have hr' : t.required = false := Bool.eq_false_iff.mpr hr
          simp [List.exists_mem_cons_iff, hr']
      · rw [settle]
        simp only [if_true]
        rw [ih]
        simp [List.exists_mem_cons_iff]

/-- Classification preserves duplicate-freeness of both sets. -/
theorem settle_nodup :
    ∀ (outs : List (TaskDef × Bool)) (ts : List (String × TaskInstance))
      (ex fl : List String), ex.Nodup → fl.Nodup →
    (settle outs ts ex fl).2.1.Nodup ∧ (settle outs ts ex fl).2.2.Nodup := by
  intro outs
  induction outs with
  | nil => intro ts ex fl he hf; exact ⟨he, hf⟩
  | cons p rest ih =>
      obtain ⟨t, b⟩ := p
      intro ts ex fl he hf
      cases b
      · by_cases hr : t.required = true
        · rw [settle]
          simp only [Bool.false_eq_true, if_false, hr, if_true]
          exact ih ts ex (insertId fl t.id) he (insertId_nodup fl t.id hf)
        · rw [settle]
          simp only [Bool.false_eq_true, if_false, hr]
          exact ih (skipTask ts t.id) (insertId ex t.id) fl (insertId_nodup ex t.id he) hf
      · rw [settle]
        simp only [if_true]
        exact ih ts (insertId ex t.id) fl (insertId_nodup ex t.id he) hf

/-- Classification never shrinks the combined resolved count. -/
theorem settle_len_ge :
    ∀ (outs : List (TaskDef × Bool)) (ts : List (String × TaskInstance))
      (ex fl : List String),
    ex.length + fl.length ≤
      (settle outs ts ex fl).2.1.length + (settle outs ts ex fl).2.2.length := by
  intro outs
  induction outs with
  | nil => intro ts ex fl; exact Nat.le_refl _
  | cons p rest ih =>
      obtain ⟨t, b⟩ := p
      intro ts ex fl
      cases b
      · by_cases hr : t.required = true
        · rw [settle]
          simp only [Bool.false_eq_true, if_false, hr, if_true]
          refine Nat.le_trans ?_ (ih ts ex (insertId fl t.id))
          exact Nat.add_le_add (Nat.le_refl _) (insertId_length_ge fl t.id)
        · rw [settle]
          simp only [Bool.false_eq_true, if_false, hr]
          refine Nat.le_trans ?_ (ih (skipTask ts t.id) (insertId ex t.id) fl)
          exact Nat.add_le_add (insertId_length_ge ex t.id) (Nat.le_refl _)
      · rw [settle]
        simp only [if_true]
        refine Nat.le_trans ?_ (ih ts (insertId ex t.id) fl)
        exact Nat.add_le_add (insertId_length_ge ex t.id) (Nat.le_refl _)

/-- Classifying a batch whose first outcome is unresolved strictly grows
the combined resolved count. -/
theorem settle_len_strict (t : TaskDef) (b : Bool)
    (rest : List (TaskDef × Bool)) (ts : List (String × TaskInstance))
    (ex fl : List String) (hex : t.id ∉ ex) (hfl : t.id ∉ fl) :
    ex.length + fl.length + 1 ≤
      (settle ((t, b) :: rest) ts ex fl).2.1.length +
      (settle ((t, b) :: rest) ts ex fl).2.2.length := by
  cases b
  · by_cases hr : t.required = true
    · rw [settle]
      simp only [Bool.false_eq_true, if_false, hr, if_true]
      refine Nat.le_trans ?_ (settle_len_ge rest ts ex (insertId fl t.id))
      rw [insertId_length_fresh fl t.id hfl]
      omega
    · rw [settle]
      simp only [Bool.false_eq_true, if_false, hr]
      refine Nat.le_trans ?_ (settle_len_ge rest (skipTask ts t.id) (insertId ex t.id) fl)
      rw [insertId_length_fresh ex t.id hex]
      omega
  · rw [settle]
    simp only [if_true]
    refine Nat.le_trans ?_ (settle_len_ge rest ts (insertId ex t.id) fl)
    rw [insertId_length_fresh ex t.id hex]
    omega

/-- Classification touches only the bindings of rejected non-required
outcomes. -/
theorem settle_ts_other :
    ∀ (outs : List (TaskDef × Bool)) (ts : List (String × TaskInstance))
      (ex fl : List String) (id : String),
    (∀ p ∈ outs, p.2 = false → p.1.required = false → p.1.id ≠ id) →
    alLookup (settle outs ts ex fl).1 id = alLookup ts id := by
  intro outs
  induction outs with
  | nil => intro ts ex fl id _; rfl
  | cons p rest ih =>
      obtain ⟨t, b⟩ := p
      intro ts ex fl id h
      have hrest : ∀ p ∈ rest, p.2 = false → p.1.required = false → p.1.id ≠ id :=
        fun p hp => h p (List.mem_cons_of_mem _ hp)
      cases b
      · by_cases hr : t.required = true
        · rw [settle]
          simp only [Bool.false_eq_true, if_false, hr, if_true]
          exact ih ts ex (insertId fl t.id) id hrest
        · rw [settle]
          simp only [Bool.false_eq_true, if_false, hr]
          rw [ih (skipTask ts t.id) (insertId ex t.id) fl id hrest]
          exact skipTask_lookup_other ts t.id id
            (Ne.symm (h (t, false) (List.mem_cons_self _ _) rfl (Bool.eq_false_iff.mpr hr)))
      · rw [settle]
        simp only [if_true]
        exact ih ts (insertId ex t.id) fl id hrest

/-- Classification preserves the presence of every key. -/
theorem settle_ts_presence :
    ∀ (outs : List (TaskDef × Bool)) (ts : List (String × TaskInstance))
      (ex fl : List String) (id : String),
    (∃ u, alLookup ts id = some u) →
    ∃ u, alLookup (settle outs ts ex fl).1 id = some u := by
  intro outs
  induction outs with
  | nil => intro ts ex fl id h; exact h
  | cons p rest ih =>
      obtain ⟨t, b⟩ := p
      intro ts ex fl id h
      cases b
      · by_cases hr : t.required = true
        · rw [settle]
          simp only [Bool.false_eq_true, if_false, hr, if_true]
          exact ih ts ex (insertId fl t.id) id h
        · rw [settle]
          simp only [Bool.false_eq_true, if_false, hr]
          exact ih (skipTask ts t.id) (insertId ex t.id) fl id
            (skipTask_presence ts t.id id h)
      · rw [settle]
        simp only [if_true]
        exact ih ts (insertId ex t.id) fl id h

/-- A rejected non-required outcome's instance ends skipped (batch ids
assumed distinct). -/
theorem settle_ts_skip :
    ∀ (outs : List (TaskDef × Bool)) (ts : List (String × TaskInstance))
      (ex fl : List String),
    (outs.map (fun p => p.1.id)).Nodup →
    ∀ p ∈ outs, p.2 = false → p.1.required = false →
    (∃ u, alLookup ts p.1.id = some u) →
    ∃ ti, alLookup (settle outs ts ex fl).1 p.1.id = some ti ∧
      ti.state = .skipped := by
  intro outs
  induction outs with
  | nil => intro ts ex fl _ p hp; exact absurd hp (List.not_mem_nil p)
  | cons q rest ih =>
      obtain ⟨t, b⟩ := q
      intro ts ex fl hnd p hp hb hreq hpres
      have hnd' : (rest.map (fun p => p.1.id)).Nodup := (List.nodup_cons.mp hnd).2
      rcases List.mem_cons.mp hp with rfl | hmem
      · simp only [] at hb
        subst hb
        have hreq' : t.required = false := hreq
        have hr : ¬ (t.required = true) := by simp [hreq']
        rw [settle]
        simp only [Bool.false_eq_true, if_false, hr]
        obtain ⟨ti0, hti0⟩ := hpres
        have hsk := skipTask_spec ts t.id ti0 hti0
        have hother : ∀ q ∈ rest, q.2 = false → q.1.required = false → q.1.id ≠ t.id := by
          intro q hq _ _ he
          exact (List.nodup_cons.mp hnd).1 (List.mem_map.mpr ⟨q, hq, he⟩)
        rw [settle_ts_other rest (skipTask ts t.id) (insertId ex t.id) fl t.id hother, hsk]
        exact ⟨_, rfl, rfl⟩
      · cases b
        · by_cases hr : t.required = true
          · rw [settle]
            simp only [Bool.false_eq_true, if_false, hr, if_true]
            exact ih ts ex (insertId fl t.id) hnd' p hmem hb hreq hpres
          · rw [settle]
            simp only [Bool.false_eq_true, if_false, hr]
            exact ih (skipTask ts t.id) (insertId ex t.id) fl hnd' p hmem hb hreq
              (skipTask_presence ts t.id p.1.id hpres)
        · rw [settle]
          simp only [if_true]
          exact ih ts (insertId ex t.id) fl hnd' p hmem hb hreq hpres

end PhaseExecutor


namespace PhaseExecutor

/-- Unresolvedness unpacked. -/
theorem unresolvedB_iff (st : SchedState) (t : TaskDef) :
    unresolvedB st t = true ↔ t.id ∉ st.executed ∧ t.id ∉ st.failed := by
  simp [unresolvedB]

/-- Frontier members are declared tasks. -/
theorem frontier_sub (phase : PhaseDef) (st : SchedState) :
    ∀ t ∈ frontierOf phase st, t ∈ phase.tasks :=
  fun t ht => (List.mem_filter.mp ht).1

/-- Frontier members are unresolved. -/
theorem frontier_unres (phase : PhaseDef) (st : SchedState) :
    ∀ t ∈ frontierOf phase st, t.id ∉ st.executed ∧ t.id ∉ st.failed := by
  intro t ht
  have h := (List.mem_filter.mp ht).2
  rw [Bool.and_eq_true] at h
  exact (unresolvedB_iff st t).mp h.1

/-- Every dependency of a frontier member is already executed. -/
theorem frontier_deps (phase : PhaseDef) (st : SchedState) :
    ∀ t ∈ frontierOf phase st, ∀ d ∈ t.dependencies, d ∈ st.executed := by
  intro t ht d hd
  have h := (List.mem_filter.mp ht).2
  rw [Bool.and_eq_true] at h
  have := List.all_eq_true.mp h.2 d hd
  simpa using this

/-- With distinct declared task ids the frontier's ids are distinct. -/
theorem frontier_ids_nodup (phase : PhaseDef) (st : SchedState)
    (hnd : (taskIds phase).Nodup) :
    ((frontierOf phase st).map (·.id)).Nodup :=
  List.Nodup.sublist (List.Sublist.map _ (List.filter_sublist phase.tasks)) hnd

/-- One scheduling-loop batch preserves the loop invariant. -/
theorem stepBatch_inv (phase : PhaseDef) (tx : TaskDef → Except SMError TaskResult)
    (st : SchedState) (hnd : (taskIds phase).Nodup) (inv : LoopInv phase tx st) :
    LoopInv phase tx (stepBatch tx (frontierOf phase st) st) := by
  obtain ⟨fr, hfr⟩ : ∃ fr, frontierOf phase st = fr := ⟨_, rfl⟩
  have hfr_sub : ∀ t ∈ fr, t ∈ phase.tasks := hfr ▸ frontier_sub phase st
  have hfr_unres : ∀ t ∈ fr, t.id ∉ st.executed ∧ t.id ∉ st.failed :=
    hfr ▸ frontier_unres phase st
  have hfr_deps : ∀ t ∈ fr, ∀ d ∈ t.dependencies, d ∈ st.executed :=
    hfr ▸ frontier_deps phase st
  have hfr_nodup : (fr.map (·.id)).Nodup := hfr ▸ frontier_ids_nodup phase st hnd
  rw [hfr]
  have htid_inj : ∀ t ∈ phase.tasks, ∀ t' ∈ phase.tasks, t.id = t'.id → t = t' :=
    fun t ht t' ht' he => List.inj_on_of_nodup_map hnd ht ht' he
  have hfr_inj : ∀ t ∈ fr, ∀ t' ∈ fr, t.id = t'.id → t = t' :=
    fun t ht t' ht' he => List.inj_on_of_nodup_map hfr_nodup ht ht' he
  have hpres0 : ∀ t ∈ fr, ∃ u, alLookup st.taskStates t.id = some u :=
    fun t ht => inv.instExists t (hfr_sub t ht)
  obtain ⟨⟨ts1, outs⟩, hrt⟩ : ∃ p, runTasks tx st.taskStates fr = p := ⟨_, rfl⟩
  obtain ⟨⟨ts2, ex2, fl2⟩, hse⟩ : ∃ p, settle outs ts1 st.executed st.failed = p := ⟨_, rfl⟩
  have houts_fst : outs.map Prod.fst = fr := by
    have h := runTasks_outs_fst tx fr st.taskStates
    rw [hrt] at h
    exact h
  have houts_mem : ∀ p ∈ outs, p.1 ∈ fr := by
    intro p hp
    rw [← houts_fst]
    exact List.mem_map_of_mem Prod.fst hp
  have houts_ids : outs.map (fun p => p.1.id) = fr.map (·.id) := by
    rw [← houts_fst, List.map_map]
    rfl
  have houts_nodup : (outs.map (fun p => p.1.id)).Nodup := by
    rw [houts_ids]
    exact hfr_nodup
  have hbool : ∀ p ∈ outs, (p.2 = true ↔ ∃ r, tx p.1 = .ok r) := by
    have h := runTasks_outs_bool tx fr st.taskStates hpres0
    rw [hrt] at h
    exact h
  have hfrtask : ∀ t ∈ fr, ∃ p ∈ outs, p.1 = t := by
    intro t ht
    rw [← houts_fst] at ht
    obtain ⟨p, hp, he⟩ := List.mem_map.mp ht
    exact ⟨p, hp, he⟩
  have huniq : ∀ p ∈ outs, ∀ q ∈ outs, p.1.id = q.1.id → p = q :=
    fun p hp q hq he => List.inj_on_of_nodup_map houts_nodup hp hq he
  have hex2 : ∀ id, id ∈ ex2 ↔ id ∈ st.executed ∨
      ∃ p ∈ outs, id = p.1.id ∧ (p.2 = true ∨ p.1.required = false) := by
    intro id
    have h := settle_ex_mem outs ts1 st.executed st.failed id
    rw [hse] at h
    exact h
  have hfl2 : ∀ id, id ∈ fl2 ↔ id ∈ st.failed ∨
      ∃ p ∈ outs, id = p.1.id ∧ p.2 = false ∧ p.1.required = true := by
    intro id
    have h := settle_fl_mem outs ts1 st.executed st.failed id
    rw [hse] at h
    exact h
  have hexmono : ∀ id ∈ st.executed, id ∈ ex2 := fun id h => (hex2 id).mpr (Or.inl h)
  have hflmono : ∀ id ∈ st.failed, id ∈ fl2 := fun id h => (hfl2 id).mpr (Or.inl h)
  have hpres_all : ∀ id, (∃ u, alLookup st.taskStates id = some u) →
      ∃ u, alLookup ts2 id = some u := by
    intro id h
    have h1 := runTasks_presence tx fr st.taskStates id h
    rw [hrt] at h1
    have h2 := settle_ts_presence outs ts1 st.executed st.failed id h1
    rw [hse] at h2
    exact h2
  have hts_other : ∀ id, id ∉ fr.map (·.id) →
      alLookup ts2 id = alLookup st.taskStates id := by
    intro id hid
    have hother : ∀ p ∈ outs, p.2 = false → p.1.required = false → p.1.id ≠ id := by
      intro p hp _ _ he
      exact hid (he ▸ List.mem_map.mpr ⟨p.1, houts_mem p hp, rfl⟩)
    have h1 := settle_ts_other outs ts1 st.executed st.failed id hother
    rw [hse] at h1
    have h2 := runTasks_lookup_other tx fr st.taskStates id hid
    rw [hrt] at h2
    rw [h1]
    exact h2
  have hts_ok : ∀ t ∈ fr, ∀ r, tx t = .ok r →
      ∃ ti, alLookup ts2 t.id = some ti ∧ ti.state = .completed ∧ ti.result = some r := by
    intro t ht r htx
    have hsp := runTasks_spec tx fr st.taskStates hpres0 hfr_nodup t ht
    rw [hrt] at hsp
    obtain ⟨ti, hti, hspec⟩ := hsp
    rcases hspec with ⟨r', htx', hs, hr⟩ | ⟨e, htx', hs⟩
    · rw [htx] at htx'
      injection htx' with hre
      subst hre
      have hother : ∀ p ∈ outs, p.2 = false → p.1.required = false → p.1.id ≠ t.id := by
        intro p hp hb _ he
        have hpt : p.1 = t := hfr_inj p.1 (houts_mem p hp) t ht he
        have hbt : p.2 = true := (hbool p hp).mpr ⟨r, by rw [hpt]; exact htx⟩
        rw [hbt] at hb
        exact absurd hb (by simp)
      have h2 := settle_ts_other outs ts1 st.executed st.failed t.id hother
      rw [hse] at h2
      exact ⟨ti, by rw [h2]; exact hti, hs, hr⟩
    · rw [htx] at htx'
      exact absurd htx' (by simp)
  have hts_skip : ∀ p ∈ outs, p.2 = false → p.1.required = false →
      ∃ ti, alLookup ts2 p.1.id = some ti ∧ ti.state = .skipped := by
    intro p hp hb hreq
    have hpres1 : ∃ u, alLookup ts1 p.1.id = some u := by
      have h1 := runTasks_presence tx fr st.taskStates p.1.id (hpres0 p.1 (houts_mem p hp))
      rw [hrt] at h1
      exact h1
    have h := settle_ts_skip outs ts1 st.executed st.failed houts_nodup p hp hb hreq hpres1
    rw [hse] at h
    exact h
  have hboolfalse : ∀ p ∈ outs, ∀ e, tx p.1 = .error e → p.2 = false := by
    intro p hp e htx
    cases hpb : p.2
    · rfl
    · exact absurd ((hbool p hp).mp hpb) (by simp [htx])
  have hgoal : stepBatch tx fr st =
      { taskStates := ts2, executed := ex2, failed := fl2,
        trace := st.trace ++ fr.map (·.id) } := by
    rw [stepBatch, hrt]
    simp only []
    rw [hse]
  rw [hgoal]
  refine ⟨?_, ?_, ?_, ?_, ?_, ?_, ?_, ?_, ?_, ?_, ?_, ?_, ?_, ?_⟩
  · -- instExists
    intro t ht
    exact hpres_all t.id (inv.instExists t ht)
  · -- execTrace
    intro id hid
    rcases (hex2 id).mp hid with hold | ⟨p, hp, heq, -⟩
    · exact List.mem_append_left _ (inv.execTrace id hold)
    · subst heq
      exact List.mem_append_right _ (List.mem_map.mpr ⟨p.1, houts_mem p hp, rfl⟩)
  · -- execIds
    intro id hid
    rcases (hex2 id).mp hid with hold | ⟨p, hp, heq, -⟩
    · exact inv.execIds id hold
    · subst heq
      exact List.mem_map.mpr ⟨p.1, hfr_sub p.1 (houts_mem p hp), rfl⟩
  · -- failIds
    intro id hid
    rcases (hfl2 id).mp hid with hold | ⟨p, hp, heq, -, -⟩
    · exact inv.failIds id hold
    · subst heq
      exact List.mem_map.mpr ⟨p.1, hfr_sub p.1 (houts_mem p hp), rfl⟩
  · -- execNodup
    have h := settle_nodup outs ts1 st.executed st.failed inv.execNodup inv.failNodup
    rw [hse] at h
    exact h.1
  · -- failNodup
    have h := settle_nodup outs ts1 st.executed st.failed inv.execNodup inv.failNodup
    rw [hse] at h
    exact h.2
  · -- exFlDisj
    intro id hid hfl'
    rcases (hex2 id).mp hid with hold | ⟨p, hp, heq, hcond⟩ <;>
      rcases (hfl2 id).mp hfl' with hold' | ⟨q, hq, heq', hb', hr'⟩
    · exact inv.exFlDisj id hold hold'
    · exact (hfr_unres q.1 (houts_mem q hq)).1 (heq' ▸ hold)
    · exact (hfr_unres p.1 (houts_mem p hp)).2 (heq ▸ hold')
    · have hpq : p = q := huniq p hp q hq (heq.symm.trans heq')
      subst hpq
      rcases hcond with hb | hreq
      · rw [hb] at hb'
        exact absurd hb' (by simp)
      · rw [hreq] at hr'
        exact absurd hr' (by simp)
  · -- depExecuted
    intro t ht htr d hd
    rcases List.mem_append.mp htr with h1 | h2
    · exact hexmono d (inv.depExecuted t ht h1 d hd)
    · obtain ⟨t', ht', he⟩ := List.mem_map.mp h2
      have htt : t' = t := htid_inj t' (hfr_sub t' ht') t ht he
      subst htt
      exact hexmono d (hfr_deps t' ht' d hd)
  · -- depOrder
    intro t ht d hd htr
    by_cases hin : t.id ∈ st.trace
    · obtain ⟨l₁, l₂, he, hdm, htm⟩ := inv.depOrder t ht d hd hin
      exact ⟨l₁, l₂ ++ fr.map (·.id), by rw [he, List.append_assoc],
        hdm, List.mem_append_left _ htm⟩
    · have h2 : t.id ∈ fr.map (·.id) := (List.mem_append.mp htr).resolve_left hin
      obtain ⟨t', ht', he⟩ := List.mem_map.mp h2
      have htt : t' = t := htid_inj t' (hfr_sub t' ht') t ht he
      subst htt
      exact ⟨st.trace, fr.map (·.id), rfl,
        inv.execTrace d (hfr_deps t' ht' d hd), h2⟩
  · -- execState
    intro id hid
    rcases (hex2 id).mp hid with hold | ⟨p, hp, heq, hcond⟩
    · have hnotfr : id ∉ fr.map (·.id) := by
        intro hmem
        obtain ⟨t', ht', he⟩ := List.mem_map.mp hmem
        exact (hfr_unres t' ht').1 (he ▸ hold)
      obtain ⟨ti, hti, hstate⟩ := inv.execState id hold
      exact ⟨ti, by rw [hts_other id hnotfr]; exact hti, hstate⟩
    · subst heq
      cases htx : tx p.1 with
      | ok r =>
          obtain ⟨ti, hti, hc, hr⟩ := hts_ok p.1 (houts_mem p hp) r htx
          exact ⟨ti, hti, Or.inl hc⟩
      | error e =>
          have hb : p.2 = false := hboolfalse p hp e htx
          have hreq : p.1.required = false := by
            rcases hcond with hc | hc
            · rw [hc] at hb
              exact absurd hb (by simp)
            · exact hc
          obtain ⟨ti, hti, hs⟩ := hts_skip p hp hb hreq
          exact ⟨ti, hti, Or.inr hs⟩
  · -- okCompleted
    intro t ht r htx htr
    by_cases hin : t.id ∈ fr.map (·.id)
    · obtain ⟨t', ht', he⟩ := List.mem_map.mp hin
      have htt : t' = t := htid_inj t' (hfr_sub t' ht') t ht he
      subst htt
      exact hts_ok t' ht' r htx
    · have h1 : t.id ∈ st.trace := (List.mem_append.mp htr).resolve_right hin
      obtain ⟨ti, hti, hc, hr⟩ := inv.okCompleted t ht r htx h1
      exact ⟨ti, by rw [hts_other t.id hin]; exact hti, hc, hr⟩
  · -- errRequired
    intro t ht e htx htr hreq
    by_cases hin : t.id ∈ fr.map (·.id)
    · obtain ⟨t', ht', he⟩ := List.mem_map.mp hin
      have htt : t' = t := htid_inj t' (hfr_sub t' ht') t ht he
      subst htt
      obtain ⟨p, hp, hpt⟩ := hfrtask t' ht'
      have hb : p.2 = false := hboolfalse p hp e (by rw [hpt]; exact htx)
      exact (hfl2 t'.id).mpr (Or.inr ⟨p, hp, by rw [hpt], hb, by rw [hpt]; exact hreq⟩)
    · have h1 : t.id ∈ st.trace := (List.mem_append.mp htr).resolve_right hin
      exact hflmono t.id (inv.errRequired t ht e htx h1 hreq)
  · -- errOptional
    intro t ht e htx htr hreq
    by_cases hin : t.id ∈ fr.map (·.id)
    · obtain ⟨t', ht', he⟩ := List.mem_map.mp hin
      have htt : t' = t := htid_inj t' (hfr_sub t' ht') t ht he
      subst htt
      obtain ⟨p, hp, hpt⟩ := hfrtask t' ht'
      have hb : p.2 = false := hboolfalse p hp e (by rw [hpt]; exact htx)
      refine ⟨(hex2 t'.id).mpr (Or.inr ⟨p, hp, by rw [hpt],
        Or.inr (by rw [hpt]; exact hreq)⟩), ?_⟩
      obtain ⟨ti, hti, hs⟩ := hts_skip p hp hb (by rw [hpt]; exact hreq)
      rw [hpt] at hti
      exact ⟨ti, hti, hs⟩
    · have h1 : t.id ∈ st.trace := (List.mem_append.mp htr).resolve_right hin
      obtain ⟨hexec, ti, hti, hs⟩ := inv.errOptional t ht e htx h1 hreq
      exact ⟨hexmono t.id hexec, ti, by rw [hts_other t.id hin]; exact hti, hs⟩
  · -- failSpec
    intro id hid t ht he
    rcases (hfl2 id).mp hid with hold | ⟨p, hp, heq, hb, hreqT⟩
    · exact inv.failSpec id hold t ht he
    · have htp : t = p.1 := htid_inj t ht p.1 (hfr_sub p.1 (houts_mem p hp)) (he.trans heq)
      refine ⟨by rw [htp]; exact hreqT, ?_⟩
      cases htx : tx t with
      | ok r =>
          have hbt : p.2 = true := (hbool p hp).mpr ⟨r, by rw [← htp]; exact htx⟩
          rw [hbt] at hb
          exact absurd hb (by simp)
      | error e => exact ⟨e, rfl⟩

end PhaseExecutor

namespace PhaseExecutor

/-- The scheduling loop preserves the loop invariant, whatever its
outcome. -/
theorem phaseLoop_inv (phase : PhaseDef) (tx : TaskDef → Except SMError TaskResult)
    (hnd : (taskIds phase).Nodup) :
    ∀ (fuel : Nat) (st : SchedState) (r : Except SMError Unit) (st' : SchedState),
    LoopInv phase tx st → phaseLoop tx phase fuel st = (r, st') →
    LoopInv phase tx st' := by
  intro fuel
  induction fuel with
  | zero =>
      intro st r st' inv h
      rw [phaseLoop] at h
      injection h with h1 h2
      subst h2
      exact inv
  | succ fuel ih =>
      intro st r st' inv h
      rw [phaseLoop] at h
      by_cases h1 : st.executed.length + st.failed.length < phase.tasks.length
      · rw [if_pos h1] at h
        simp only [] at h
        by_cases h2 : (frontierOf phase st).isEmpty = true
        · rw [if_pos h2] at h
          by_cases h3 : (phase.tasks.filter (fun t => unresolvedB st t)).isEmpty = true
          · rw [if_pos h3] at h
            injection h with h4 h5
            subst h5
            exact inv
          · rw [if_neg h3] at h
            injection h with h4 h5
            subst h5
            exact inv
        · rw [if_neg h2] at h
          exact ih (stepBatch tx (frontierOf phase st) st) r st'
            (stepBatch_inv phase tx st hnd inv) h
      · rw [if_neg h1] at h
        injection h with h4 h5
        subst h5
        exact inv

/-- Task-state initialization preserves the presence of every key. -/
theorem initTaskStates_mono :
    ∀ (tasks : List TaskDef) (ts : List (String × TaskInstance)) (id : String),
    (∃ u, alLookup ts id = some u) →
    ∃ u, alLookup (initTaskStates tasks ts) id = some u := by
  intro tasks
  induction tasks with
  | nil => intro ts id h; exact h
  | cons t rest ih =>
      intro ts id h
      rw [initTaskStates]
      cases hl : alLookup ts t.id with
      | some ti => exact ih ts id h
      | none => exact ih (alSet ts t.id _) id (alSet_presence ts t.id _ id h)

/-- After initialization every declared task has an instance. -/
theorem initTaskStates_presence :
    ∀ (tasks : List TaskDef) (ts : List (String × TaskInstance)),
    ∀ t ∈ tasks, ∃ u, alLookup (initTaskStates tasks ts) t.id = some u := by
  intro tasks
  induction tasks with
  | nil => intro ts t ht; exact absurd ht (List.not_mem_nil t)
  | cons t0 rest ih =>
      intro ts t ht
      rw [initTaskStates]
      rcases List.mem_cons.mp ht with rfl | hmem
      · cases hl : alLookup ts t.id with
        | some ti => exact initTaskStates_mono rest ts t.id ⟨ti, hl⟩
        | none =>
            exact initTaskStates_mono rest (alSet ts t.id _) t.id
              ⟨_, alLookup_alSet_self ts t.id _⟩
      · cases hl : alLookup ts t0.id with
        | some ti => exact ih ts t hmem
        | none => exact ih (alSet ts t0.id _) t hmem

/-- The loop invariant holds at loop entry. -/
theorem loopInv_init (phase : PhaseDef) (tx : TaskDef → Except SMError TaskResult)
    (ts : List (String × TaskInstance)) :
    LoopInv phase tx
      { taskStates := initTaskStates phase.tasks ts,
        executed := [], failed := [], trace := [] } := by
  refine ⟨?_, ?_, ?_, ?_, ?_, ?_, ?_, ?_, ?_, ?_, ?_, ?_, ?_, ?_⟩
  · exact fun t ht => initTaskStates_presence phase.tasks ts t ht
  · exact fun id hid => absurd hid (List.not_mem_nil id)
  · exact fun id hid => absurd hid (List.not_mem_nil id)
  · exact fun id hid => absurd hid (List.not_mem_nil id)
  · exact List.nodup_nil
  · exact List.nodup_nil
  · exact fun id hid => absurd hid (List.not_mem_nil id)
  · exact fun t ht htr => absurd htr (List.not_mem_nil t.id)
  · exact fun t ht d hd htr => absurd htr (List.not_mem_nil t.id)
  · exact fun id hid => absurd hid (List.not_mem_nil id)
  · exact fun t ht r htx htr => absurd htr (List.not_mem_nil t.id)
  · exact fun t ht e htx htr => absurd htr (List.not_mem_nil t.id)
  · exact fun t ht e htx htr => absurd htr (List.not_mem_nil t.id)
  · exact fun id hid => absurd hid (List.not_mem_nil id)

/-- A duplicate-free list of strings is no longer than any list
containing it. -/
theorem nodup_subset_length_le (l m : List String) (hnd : l.Nodup)
    (hsub : l ⊆ m) : l.length ≤ m.length := by
  have h1 : l.toFinset.card = l.length := List.toFinset_card_of_nodup hnd
  have h2 : l.toFinset ⊆ m.toFinset := by
    intro x hx
    rw [List.mem_toFinset] at hx ⊢
    exact hsub hx
  calc l.length = l.toFinset.card := h1.symm
    _ ≤ m.toFinset.card := Finset.card_le_card h2
    _ ≤ m.length := m.toFinset_card_le

/-- The bookkeeping sets never exceed the declared task count. -/
theorem inv_card_bound (phase : PhaseDef) (tx : TaskDef → Except SMError TaskResult)
    (st : SchedState) (inv : LoopInv phase tx st) :
    st.executed.length + st.failed.length ≤ phase.tasks.length := by
  have hnd : (st.executed ++ st.failed).Nodup := by
    rw [List.nodup_append]
    exact ⟨inv.execNodup, inv.failNodup, fun a ha hb => inv.exFlDisj a ha hb⟩
  have hsub : (st.executed ++ st.failed) ⊆ taskIds phase := by
    intro x hx
    rcases List.mem_append.mp hx with h | h
    · exact inv.execIds x h
    · exact inv.failIds x h
  have := nodup_subset_length_le _ _ hnd hsub
  rw [List.length_append] at this
  rw [show phase.tasks.length = (taskIds phase).length by rw [taskIds, List.length_map]]
  exact this

/-- When the bookkeeping sets saturate the task count, every declared
task is resolved. -/
theorem inv_saturated (phase : PhaseDef) (tx : TaskDef → Except SMError TaskResult)
    (st : SchedState) (hnd : (taskIds phase).Nodup) (inv : LoopInv phase tx st)
    (hge : phase.tasks.length ≤ st.executed.length + st.failed.length) :
    ∀ t ∈ phase.tasks, t.id ∈ st.executed ∨ t.id ∈ st.failed := by
  intro t ht
  have hund : (st.executed ++ st.failed).Nodup := by
    rw [List.nodup_append]
    exact ⟨inv.execNodup, inv.failNodup, fun a ha hb => inv.exFlDisj a ha hb⟩
  have hsub : (st.executed ++ st.failed).toFinset ⊆ (taskIds phase).toFinset := by
    intro x hx
    rw [List.mem_toFinset] at hx ⊢
    rcases List.mem_append.mp hx with h | h
    · exact inv.execIds x h
    · exact inv.failIds x h
  have hcard : (taskIds phase).toFinset.card ≤ (st.executed ++ st.failed).toFinset.card := by
    rw [List.toFinset_card_of_nodup hund, List.toFinset_card_of_nodup hnd,
      List.length_append, taskIds, List.length_map]
    exact hge
  have heq := Finset.eq_of_subset_of_card_le hsub hcard
  have hmem : t.id ∈ (st.executed ++ st.failed).toFinset := by
    rw [heq, List.mem_toFinset]
    exact List.mem_map.mpr ⟨t, ht, rfl⟩
  rw [List.mem_toFinset] at hmem
  exact List.mem_append.mp hmem

/-- A batch on a non-empty frontier strictly grows the combined resolved
count. -/
theorem stepBatch_growth (phase : PhaseDef) (tx : TaskDef → Except SMError TaskResult)
    (st : SchedState) (hne : frontierOf phase st ≠ []) :
    st.executed.length + st.failed.length + 1 ≤
      (stepBatch tx (frontierOf phase st) st).executed.length +
      (stepBatch tx (frontierOf phase st) st).failed.length := by
  obtain ⟨fr, hfr⟩ : ∃ fr, frontierOf phase st = fr := ⟨_, rfl⟩
  have hfr_unres : ∀ t ∈ fr, t.id ∉ st.executed ∧ t.id ∉ st.failed :=
    hfr ▸ frontier_unres phase st
  rw [hfr] at hne ⊢
  obtain ⟨t0, rest, rfl⟩ := List.exists_cons_of_ne_nil hne
  obtain ⟨⟨ts1, outs⟩, hrt⟩ : ∃ p, runTasks tx st.taskStates (t0 :: rest) = p := ⟨_, rfl⟩
  have houts_fst : outs.map Prod.fst = t0 :: rest := by
    have h := runTasks_outs_fst tx (t0 :: rest) st.taskStates
    rw [hrt] at h
    exact h
  obtain ⟨p0, outs', rfl⟩ : ∃ p0 outs', outs = p0 :: outs' := by
    cases outs with
    | nil => exact absurd houts_fst (by simp)
    | cons a b => exact ⟨a, b, rfl⟩
  have htp : p0.1 = t0 := by
    rw [List.map_cons, List.cons.injEq] at houts_fst
    exact houts_fst.1
  have hp0 : p0 = (t0, p0.2) := by rw [← htp]
  rw [hp0] at hrt
  have hgoal : stepBatch tx (t0 :: rest) st =
      { taskStates := (settle ((t0, p0.2) :: outs') ts1 st.executed st.failed).1,
        executed := (settle ((t0, p0.2) :: outs') ts1 st.executed st.failed).2.1,
        failed := (settle ((t0, p0.2) :: outs') ts1 st.executed st.failed).2.2,
        trace := st.trace ++ (t0 :: rest).map (·.id) } := by
    rw [stepBatch, hrt]
  rw [hgoal]
  exact settle_len_strict t0 p0.2 outs' ts1 st.executed st.failed
    (hfr_unres t0 (List.mem_cons_self t0 rest)).1
    (hfr_unres t0 (List.mem_cons_self t0 rest)).2

/-- With a topologically sorted task list and no failures, unresolved
tasks always leave the frontier non-empty (there is a first unresolved
task, and all of its dependencies are executed). -/
theorem depSorted_progress :
    ∀ (rest : List TaskDef) (seen : List String) (st : SchedState),
    depSortedB rest seen = true →
    (∀ d ∈ seen, d ∈ st.executed ∨ d ∈ st.failed) →
    st.failed = [] →
    ∀ t0 ∈ rest, unresolvedB st t0 = true →
    ∃ t ∈ rest, unresolvedB st t = true ∧
      t.dependencies.all (fun d => st.executed.contains d) = true := by
  intro rest
  induction rest with
  | nil => intro seen st _ _ _ t0 ht0; exact absurd ht0 (List.not_mem_nil t0)
  | cons t rest ih =>
      intro seen st hds hseen hfl t0 ht0 hunres
      rw [depSortedB] at hds
      rw [Bool.and_eq_true] at hds
      by_cases hu : unresolvedB st t = true
      · refine ⟨t, List.mem_cons_self t rest, hu, ?_⟩
        rw [List.all_eq_true]
        intro d hd
        have hdseen : d ∈ seen := by
          have := List.all_eq_true.mp hds.1 d hd
          simpa using this
        rcases hseen d hdseen with hex | hfl'
        · simpa using hex
        · rw [hfl] at hfl'
          exact absurd hfl' (List.not_mem_nil d)
      · have hres : t.id ∈ st.executed ∨ t.id ∈ st.failed := by
          have h1 : ¬(t.id ∉ st.executed ∧ t.id ∉ st.failed) :=
            fun hc => hu ((unresolvedB_iff st t).mpr hc)
          tauto
        have hseen' : ∀ d ∈ seen ++ [t.id], d ∈ st.executed ∨ d ∈ st.failed := by
          intro d hd
          rcases List.mem_append.mp hd with h | h
          · exact hseen d h
          · rw [List.mem_singleton] at h
            subst h
            exact hres
        have ht0' : t0 ∈ rest := by
          rcases List.mem_cons.mp ht0 with rfl | h
          · exact absurd hunres hu
          · exact h
        obtain ⟨t', ht', h1, h2⟩ := ih (seen ++ [t.id]) st hds.2 hseen' hfl t0 ht0' hunres
        exact ⟨t', List.mem_cons_of_mem t ht', h1, h2⟩

end PhaseExecutor

namespace PhaseExecutor

/-- With adequate fuel (one unit per unresolved task plus one), the
scheduling loop never runs out: it either resolves every declared task
and returns success, or stops at an empty frontier with unresolved tasks
and returns the scheduling error built from the pending ids and the
failed set; either way the loop invariant holds at the final state. -/
theorem phaseLoop_master (phase : PhaseDef) (tx : TaskDef → Except SMError TaskResult)
    (hnd : (taskIds phase).Nodup) :
    ∀ (fuel : Nat) (st : SchedState), LoopInv phase tx st →
    phase.tasks.length + 1 ≤ fuel + st.executed.length + st.failed.length →
    (∃ st', phaseLoop tx phase fuel st = (.ok (), st') ∧ LoopInv phase tx st' ∧
        ∀ t ∈ phase.tasks, t.id ∈ st'.executed ∨ t.id ∈ st'.failed) ∨
    (∃ st', phaseLoop tx phase fuel st =
        (.error (.phaseExecutionError schedulingMsg phase.id st'.failed
          ((phase.tasks.filter (fun t => unresolvedB st' t)).map (·.id))), st') ∧
        LoopInv phase tx st' ∧ frontierOf phase st' = [] ∧
        phase.tasks.filter (fun t => unresolvedB st' t) ≠ []) := by
  intro fuel
  induction fuel with
  | zero =>
      intro st inv hfuel
      have := inv_card_bound phase tx st inv
      omega
  | succ fuel ih =>
      intro st inv hfuel
      by_cases h1 : st.executed.length + st.failed.length < phase.tasks.length
      · by_cases h2 : (frontierOf phase st).isEmpty = true
        · by_cases h3 : (phase.tasks.filter (fun t => unresolvedB st t)).isEmpty = true
          · refine Or.inl ⟨st, ?_, inv, ?_⟩
            · rw [phaseLoop, if_pos h1]
              simp only []
              rw [if_pos h2, if_pos h3]
            · intro t ht
              have hfe := List.isEmpty_iff.mp h3
              have hnu : ¬(unresolvedB st t = true) :=
                List.filter_eq_nil_iff.mp hfe t ht
              rw [unresolvedB_iff] at hnu
              tauto
          · refine Or.inr ⟨st, ?_, inv, List.isEmpty_iff.mp h2, ?_⟩
            · rw [phaseLoop, if_pos h1]
              simp only []
              rw [if_pos h2, if_neg h3]
            · intro hc
              exact h3 (List.isEmpty_iff.mpr hc)
        · have hne : frontierOf phase st ≠ [] := fun hc => h2 (List.isEmpty_iff.mpr hc)
          have inv' := stepBatch_inv phase tx st hnd inv
          have hgrow := stepBatch_growth phase tx st hne
          have hfuel' : phase.tasks.length + 1 ≤ fuel +
              (stepBatch tx (frontierOf phase st) st).executed.length +
              (stepBatch tx (frontierOf phase st) st).failed.length := by omega
          have hstep : phaseLoop tx phase (fuel + 1) st =
              phaseLoop tx phase fuel (stepBatch tx (frontierOf phase st) st) := by
            rw [phaseLoop, if_pos h1]
            simp only []
            rw [if_neg h2]
          rcases ih (stepBatch tx (frontierOf phase st) st) inv' hfuel' with
            ⟨st', heq, hinv, hall⟩ | ⟨st', heq, hinv, hfr, hpend⟩
          · exact Or.inl ⟨st', by rw [hstep]; exact heq, hinv, hall⟩
          · exact Or.inr ⟨st', by rw [hstep]; exact heq, hinv, hfr, hpend⟩
      · refine Or.inl ⟨st, ?_, inv, inv_saturated phase tx st hnd inv (by omega)⟩
        rw [phaseLoop, if_neg h1]

end PhaseExecutor

namespace PhaseExecutor

/-- `executePhase` returns the scheduling loop's final state verbatim, and
copies its task instances into the returned phase instance. -/
theorem executePhase_loop (tx : TaskDef → Except SMError TaskResult)
    (phase : PhaseDef) (pi : PhaseInstance) (res : Except SMError Unit)
    (pi' : PhaseInstance) (st : SchedState)
    (h : executePhase tx phase pi = (res, pi', st)) :
    (∃ r0, phaseLoop tx phase (phase.tasks.length + 1)
        { taskStates := initTaskStates phase.tasks pi.taskStates,
          executed := [], failed := [], trace := [] } = (r0, st)) ∧
    pi' = { pi with taskStates := st.taskStates } := by
  obtain ⟨⟨r0, stL⟩, hpl⟩ : ∃ p, phaseLoop tx phase (phase.tasks.length + 1)
      { taskStates := initTaskStates phase.tasks pi.taskStates,
        executed := [], failed := [], trace := [] } = p := ⟨_, rfl⟩
  rw [executePhase] at h
  rw [hpl] at h
  cases r0 with
  | error e =>
      simp only [Prod.mk.injEq] at h
      obtain ⟨h1, h2, h3⟩ := h
      subst h3
      exact ⟨⟨_, hpl⟩, h2.symm⟩
  | ok u =>
      cases u
      simp only [] at h
      by_cases hfe : stL.failed.isEmpty = true
      · rw [if_pos hfe] at h
        by_cases hv : validatePhaseCompletion phase stL.taskStates = true
        · rw [if_pos hv] at h
          simp only [Prod.mk.injEq] at h
          obtain ⟨h1, h2, h3⟩ := h
          subst h3
          exact ⟨⟨_, hpl⟩, h2.symm⟩
        · rw [if_neg hv] at h
          simp only [Prod.mk.injEq] at h
          obtain ⟨h1, h2, h3⟩ := h
          subst h3
          exact ⟨⟨_, hpl⟩, h2.symm⟩
      · rw [if_neg hfe] at h
        simp only [Prod.mk.injEq] at h
        obtain ⟨h1, h2, h3⟩ := h
        subst h3
        exact ⟨⟨_, hpl⟩, h2.symm⟩

/-- The loop iteration that finds an empty frontier with unresolved tasks
remaining throws the scheduling error built from the failed set and the
pending ids. -/
theorem phaseLoop_empty_frontier (tx : TaskDef → Except SMError TaskResult)
    (phase : PhaseDef) (fuel : Nat) (st : SchedState)
    (h1 : st.executed.length + st.failed.length < phase.tasks.length)
    (h2 : frontierOf phase st = [])
    (h3 : phase.tasks.filter (fun t => unresolvedB st t) ≠ []) :
    phaseLoop tx phase (fuel+1) st =
      (.error (.phaseExecutionError schedulingMsg phase.id st.failed
        ((phase.tasks.filter (fun t => unresolvedB st t)).map (·.id))), st) := by
  rw [phaseLoop, if_pos h1]
  simp only []
  rw [if_pos (by rw [List.isEmpty_iff]; exact h2),
    if_neg (by rw [List.isEmpty_iff]; exact h3)]

end PhaseExecutor

/-- C2: in `PhaseExecutor.executePhase` (with distinct declared task ids),
every started task's every declared dependency was started strictly
earlier (the final start trace splits around them) and was resolved into
a terminal `completed` or `skipped` instance state; so a task never
starts before all its dependencies have reached a terminal state. -/
theorem c2_dependency_order (tx : TaskDef → Except SMError TaskResult)
    (phase : PhaseDef) (pi : PhaseInstance) (res : Except SMError Unit)
    (pi' : PhaseInstance) (st : PhaseExecutor.SchedState)
    (hnd : (PhaseExecutor.taskIds phase).Nodup)
    (h : PhaseExecutor.executePhase tx phase pi = (res, pi', st)) :
    ∀ t ∈ phase.tasks, t.id ∈ st.trace → ∀ d ∈ t.dependencies,
      (∃ l₁ l₂, st.trace = l₁ ++ l₂ ∧ d ∈ l₁ ∧ t.id ∈ l₂) ∧
      d ∈ st.executed ∧
      ∃ ti, alLookup st.taskStates d = some ti ∧
        (ti.state = .completed ∨ ti.state = .skipped) := by
  obtain ⟨⟨r0, hpl⟩, hpi'⟩ := PhaseExecutor.executePhase_loop tx phase pi res pi' st h
  have inv := PhaseExecutor.phaseLoop_inv phase tx hnd (phase.tasks.length + 1)
    _ r0 st (PhaseExecutor.loopInv_init phase tx pi.taskStates) hpl
  intro t ht htr d hd
  have hdx := inv.depExecuted t ht htr d hd
  exact ⟨inv.depOrder t ht d hd htr, hdx, inv.execState d hdx⟩

/-- C2 witness: the dependency chain `A → B → C` of `chainPhase` (listed
out of order) is started in dependency order, and the theorem's trace
split is exhibited for `B`'s dependency `A`. -/
theorem c2_witness :
    (PhaseExecutor.executePhase (realTx none) chainPhase (freshPI "chain")).2.2.trace
      = ["A", "B", "C"] ∧
    (∃ l₁ l₂,
      (PhaseExecutor.executePhase (realTx none) chainPhase (freshPI "chain")).2.2.trace
        = l₁ ++ l₂ ∧ "A" ∈ l₁ ∧ "B" ∈ l₂) := by
  refine ⟨by decide, ?_⟩
  have hres := c2_dependency_order (realTx none) chainPhase (freshPI "chain")
    (PhaseExecutor.executePhase (realTx none) chainPhase (freshPI "chain")).1
    (PhaseExecutor.executePhase (realTx none) chainPhase (freshPI "chain")).2.1
    (PhaseExecutor.executePhase (realTx none) chainPhase (freshPI "chain")).2.2
    (by decide) rfl
    { id := "B", taskType := "automated", required := true, dependencies := ["A"] }
    (by decide) (by decide) "A" (by decide)
  exact hres.1

/-- C4 counterexample: `cyclePhase` has a dependency cycle (`Y`/`Z`), and
its execution does fail with the scheduling error — but only after the
free task `X` has already been started and run: the error is *not*
raised before any task runs. -/
theorem c4_counterexample :
    (∃ fl pend, (PhaseExecutor.executePhase (realTx none) cyclePhase (freshPI "cy")).1 =
      .error (.phaseExecutionError PhaseExecutor.schedulingMsg "cy" fl pend)) ∧
    (PhaseExecutor.executePhase (realTx none) cyclePhase (freshPI "cy")).2.2.trace = ["X"] ∧
    ["X"] ≠ ([] : List String) := by
  exact ⟨⟨[], ["Y", "Z"], rfl⟩, by decide, by decide⟩

/-- C4 (amended): whenever the scheduling loop finds an empty frontier
while unresolved tasks remain, it fails with the scheduling
`PhaseExecutionError` carrying the already-failed ids and the unresolved
(pending) ids; and when *every* task of a non-empty phase declares at
least one dependency (in particular when the whole graph is cyclic),
`executePhase` raises that error before any task runs — with all ids
pending, nothing failed and an empty start trace.  (For a phase that
merely *contains* a cycle, tasks outside the cycle do run first; see the
counterexample.) -/
theorem c4_empty_frontier (tx : TaskDef → Except SMError TaskResult) (phase : PhaseDef) :
    (∀ (fuel : Nat) (st : PhaseExecutor.SchedState),
      st.executed.length + st.failed.length < phase.tasks.length →
      PhaseExecutor.frontierOf phase st = [] →
      phase.tasks.filter (fun t => PhaseExecutor.unresolvedB st t) ≠ [] →
      PhaseExecutor.phaseLoop tx phase (fuel+1) st =
        (.error (.phaseExecutionError PhaseExecutor.schedulingMsg phase.id st.failed
          ((phase.tasks.filter (fun t => PhaseExecutor.unresolvedB st t)).map (·.id))), st)) ∧
    (phase.tasks ≠ [] → (∀ t ∈ phase.tasks, t.dependencies ≠ []) →
      ∀ pi : PhaseInstance,
        PhaseExecutor.executePhase tx phase pi =
          (.error (.phaseExecutionError PhaseExecutor.schedulingMsg phase.id []
            (PhaseExecutor.taskIds phase)),
           { pi with taskStates := PhaseExecutor.initTaskStates phase.tasks pi.taskStates },
           { taskStates := PhaseExecutor.initTaskStates phase.tasks pi.taskStates,
             executed := [], failed := [], trace := [] })) := by
  constructor
  · intro fuel st h1 h2 h3
    exact PhaseExecutor.phaseLoop_empty_frontier tx phase fuel st h1 h2 h3
  · intro hne hdeps pi
    have h1 : (0 : Nat) + 0 < phase.tasks.length := by
      have := List.length_pos.mpr hne
      omega
    have hfr : PhaseExecutor.frontierOf phase
        { taskStates := PhaseExecutor.initTaskStates phase.tasks pi.taskStates,
          executed := [], failed := [], trace := [] } = [] := by
      rw [PhaseExecutor.frontierOf, List.filter_eq_nil_iff]
      intro t ht hcond
      rw [Bool.and_eq_true] at hcond
      obtain ⟨d, hd⟩ := List.exists_mem_of_ne_nil _ (hdeps t ht)
      have := List.all_eq_true.mp hcond.2 d hd
      simp at this
    have hpend : phase.tasks.filter (fun t => PhaseExecutor.unresolvedB
        { taskStates := PhaseExecutor.initTaskStates phase.tasks pi.taskStates,
          executed := [], failed := [], trace := [] } t) = phase.tasks :=
      List.filter_eq_self.mpr (fun t _ => rfl)
    have hloop := PhaseExecutor.phaseLoop_empty_frontier tx phase phase.tasks.length
      { taskStates := PhaseExecutor.initTaskStates phase.tasks pi.taskStates,
        executed := [], failed := [], trace := [] }
      h1 hfr (by rw [hpend]; exact hne)
    rw [hpend] at hloop
    rw [PhaseExecutor.executePhase, hloop]
    rfl

/-- C4 witness: the amended theorem instantiated on `allCyclePhase`,
whose every task lies on the `Y`/`Z` cycle: the scheduling error is
raised with both ids pending, nothing failed, and an empty start
trace. -/
theorem c4_witness :
    ∃ pi' st', PhaseExecutor.executePhase (realTx none) allCyclePhase (freshPI "ac") =
      (.error (.phaseExecutionError PhaseExecutor.schedulingMsg "ac" [] ["Y", "Z"]),
        pi', st') ∧ st'.trace = [] := by
  have h := (c4_empty_frontier (realTx none) allCyclePhase).2 (by decide) (by decide)
    (freshPI "ac")
  exact ⟨_, _, h, rfl⟩

/-- C10: in `PhaseExecutor.executePhase` (with distinct declared task
ids), every started task whose executor call resolves is marked
`completed` with exactly the returned result on the returned phase
instance — the result's shape is never consulted (`validateTaskResult`
plays no part in the scheduling path). -/
theorem c10_resolved_marked_completed (tx : TaskDef → Except SMError TaskResult)
    (phase : PhaseDef) (pi : PhaseInstance) (res : Except SMError Unit)
    (pi' : PhaseInstance) (st : PhaseExecutor.SchedState)
    (hnd : (PhaseExecutor.taskIds phase).Nodup)
    (h : PhaseExecutor.executePhase tx phase pi = (res, pi', st)) :
    ∀ t ∈ phase.tasks, ∀ r, tx t = .ok r → t.id ∈ st.trace →
      ∃ ti, alLookup pi'.taskStates t.id = some ti ∧
        ti.state = .completed ∧ ti.result = some r := by
  obtain ⟨⟨r0, hpl⟩, hpi'⟩ := PhaseExecutor.executePhase_loop tx phase pi res pi' st h
  have inv := PhaseExecutor.phaseLoop_inv phase tx hnd (phase.tasks.length + 1)
    _ r0 st (PhaseExecutor.loopInv_init phase tx pi.taskStates) hpl
  intro t ht r htx htr
  rw [hpi']
  exact inv.okCompleted t ht r htx htr

/-- C10 witness: a required approval task explicitly rejected through the
metadata still resolves, so its instance ends `completed` carrying the
`rejected` result, the phase succeeds, and `validateTaskResult` would
have rejected that very instance. -/
theorem c10_witness :
    (PhaseExecutor.executePhase (realTx (some apMeta)) apPhase (freshPI "pa")).1 = .ok () ∧
    (∃ ti, alLookup (PhaseExecutor.executePhase (realTx (some apMeta)) apPhase
        (freshPI "pa")).2.1.taskStates "ap" = some ti ∧
      ti.state = .completed ∧
      ti.result = some (TaskExecutor.executeTask (some apMeta) apTask)) ∧
    (∃ ti, alLookup (PhaseExecutor.executePhase (realTx (some apMeta)) apPhase
        (freshPI "pa")).2.1.taskStates "ap" = some ti ∧
      TaskExecutor.validateTaskResult apTask ti = false) := by
  refine ⟨rfl, ?_, ⟨_, rfl, by decide⟩⟩
  exact c10_resolved_marked_completed (realTx (some apMeta)) apPhase (freshPI "pa")
    (PhaseExecutor.executePhase (realTx (some apMeta)) apPhase (freshPI "pa")).1
    (PhaseExecutor.executePhase (realTx (some apMeta)) apPhase (freshPI "pa")).2.1
    (PhaseExecutor.executePhase (realTx (some apMeta)) apPhase (freshPI "pa")).2.2
    (by decide) rfl apTask (by decide)
    (TaskExecutor.executeTask (some apMeta) apTask) rfl (by decide)

/-- C3: in `PhaseExecutor.executePhase` (with distinct declared task
ids): (a) a started required task whose executor call rejects makes the
phase fail with a `PhaseExecutionError` whose failed set contains it;
(b) a started non-required task whose executor call rejects ends with a
`skipped` instance and counts as resolved (it joins the executed set), so
downstream tasks still run; (c) with a topologically sorted task list, a
phase whose required tasks all resolve completes successfully even if
non-required tasks reject. -/
theorem c3_required_optional_failures (tx : TaskDef → Except SMError TaskResult)
    (phase : PhaseDef) (pi : PhaseInstance) (res : Except SMError Unit)
    (pi' : PhaseInstance) (st : PhaseExecutor.SchedState)
    (hnd : (PhaseExecutor.taskIds phase).Nodup)
    (h : PhaseExecutor.executePhase tx phase pi = (res, pi', st)) :
    (∀ t ∈ phase.tasks, ∀ e, tx t = .error e → t.required = true → t.id ∈ st.trace →
      ∃ msg fl pend, res = .error (.phaseExecutionError msg phase.id fl pend) ∧
        t.id ∈ fl) ∧
    (∀ t ∈ phase.tasks, ∀ e, tx t = .error e → t.required = false → t.id ∈ st.trace →
      t.id ∈ st.executed ∧
      ∃ ti, alLookup st.taskStates t.id = some ti ∧ ti.state = .skipped) ∧
    (PhaseExecutor.depSortedB phase.tasks [] = true →
      (∀ t ∈ phase.tasks, t.required = true → ∃ r, tx t = .ok r) →
      res = .ok ()) := by
  have hflempty : ∀ st₁ : PhaseExecutor.SchedState, PhaseExecutor.LoopInv phase tx st₁ →
      (∀ t ∈ phase.tasks, t.required = true → ∃ r, tx t = .ok r) → st₁.failed = [] := by
    intro st₁ inv₁ hreq
    cases hfl : st₁.failed with
    | nil => rfl
    | cons a as =>
        have ha : a ∈ st₁.failed := by
          rw [hfl]
          exact List.mem_cons_self a as
        obtain ⟨t, ht, hta⟩ := List.mem_map.mp (inv₁.failIds a ha)
        obtain ⟨hr, e, htxe⟩ := inv₁.failSpec a ha t ht hta
        obtain ⟨r, hok⟩ := hreq t ht hr
        rw [hok] at htxe
        exact absurd htxe (by simp)
  have hmaster := PhaseExecutor.phaseLoop_master phase tx hnd (phase.tasks.length + 1)
    { taskStates := PhaseExecutor.initTaskStates phase.tasks pi.taskStates,
      executed := [], failed := [], trace := [] }
    (PhaseExecutor.loopInv_init phase tx pi.taskStates) (le_refl _)
  rw [PhaseExecutor.executePhase] at h
  rcases hmaster with ⟨st₁, heq, inv₁, hall⟩ | ⟨st₁, heq, inv₁, hfr, hpend⟩
  · rw [heq] at h
    simp only [] at h
    have hst : st = st₁ := by
      have h' := h
      split_ifs at h' <;> (simp only [Prod.mk.injEq] at h'; exact h'.2.2.symm)
    subst hst
    refine ⟨?_, ?_, ?_⟩
    · intro t ht e htx hreq htr
      have hmem : t.id ∈ st.failed := inv₁.errRequired t ht e htx htr hreq
      have hfe : ¬(st.failed.isEmpty = true) := by
        intro hc
        rw [List.isEmpty_iff.mp hc] at hmem
        exact List.not_mem_nil _ hmem
      have h' := h
      rw [if_neg hfe] at h'
      simp only [Prod.mk.injEq] at h'
      exact ⟨PhaseExecutor.requiredFailMsg, st.failed, [], h'.1.symm, hmem⟩
    · intro t ht e htx hreq htr
      exact inv₁.errOptional t ht e htx htr hreq
    · intro hds hreq
      have hfl := hflempty st inv₁ hreq
      have hfe : st.failed.isEmpty = true := by
        rw [hfl]
        rfl
      have hv : PhaseExecutor.validatePhaseCompletion phase st.taskStates = true := by
        rw [PhaseExecutor.validatePhaseCompletion, List.all_eq_true]
        intro t htf
        have ht := (List.mem_filter.mp htf).1
        have hreqt : t.required = true := by
          have := (List.mem_filter.mp htf).2
          simpa using this
        obtain ⟨r, hok⟩ := hreq t ht hreqt
        have hexec : t.id ∈ st.executed := by
          rcases hall t ht with hx | hx
          · exact hx
          · rw [hfl] at hx
            exact absurd hx (List.not_mem_nil _)
        obtain ⟨ti, hti, hc, hr'⟩ :=
          inv₁.okCompleted t ht r hok (inv₁.execTrace t.id hexec)
        rw [hti]
        simp [hc]
      have h' := h
      rw [if_pos hfe, if_pos hv] at h'
      simp only [Prod.mk.injEq] at h'
      exact h'.1.symm
  · rw [heq] at h
    simp only [Prod.mk.injEq] at h
    obtain ⟨h1, h2, h3⟩ := h
    subst h3
    refine ⟨?_, ?_, ?_⟩
    · intro t ht e htx hreq htr
      have hmem : t.id ∈ st₁.failed := inv₁.errRequired t ht e htx htr hreq
      exact ⟨PhaseExecutor.schedulingMsg, st₁.failed,
        (phase.tasks.filter (fun t => PhaseExecutor.unresolvedB st₁ t)).map (·.id),
        h1.symm, hmem⟩
    · intro t ht e htx hreq htr
      exact inv₁.errOptional t ht e htx htr hreq
    · intro hds hreq
      have hfl := hflempty st₁ inv₁ hreq
      obtain ⟨t0, ht0f⟩ := List.exists_mem_of_ne_nil _ hpend
      have ht0 := (List.mem_filter.mp ht0f).1
      have hu := (List.mem_filter.mp ht0f).2
      obtain ⟨t', ht', hu', hall'⟩ := PhaseExecutor.depSorted_progress phase.tasks [] st₁
        hds (fun d hd => absurd hd (List.not_mem_nil d)) hfl t0 ht0 hu
      have hmem : t' ∈ PhaseExecutor.frontierOf phase st₁ := by
        rw [PhaseExecutor.frontierOf]
        refine List.mem_filter.mpr ⟨ht', ?_⟩
        rw [Bool.and_eq_true]
        exact ⟨hu', hall'⟩
      rw [hfr] at hmem
      exact absurd hmem (List.not_mem_nil t')

/-- C3 witness: (a) the always-failing required task `req` makes its
phase fail with an error whose failed set contains `req`; (b) in
`optFailPhase` the failing non-required task `opt` ends skipped yet
resolved, and its dependent `down` still ran; (c) the all-required,
all-resolving chain phase completes successfully. -/
theorem c3_witness :
    (∃ msg fl pend,
      (PhaseExecutor.executePhase (failOnTx ["req"] (SMError.jsError "boom"))
        reqFailPhase (freshPI "rf")).1 =
          .error (.phaseExecutionError msg "rf" fl pend) ∧ "req" ∈ fl) ∧
    ("opt" ∈ (PhaseExecutor.executePhase (failOnTx ["opt"] (SMError.jsError "boom"))
        optFailPhase (freshPI "of")).2.2.executed ∧
      (∃ ti, alLookup (PhaseExecutor.executePhase (failOnTx ["opt"] (SMError.jsError "boom"))
        optFailPhase (freshPI "of")).2.2.taskStates "opt" = some ti ∧
        ti.state = .skipped) ∧
      "down" ∈ (PhaseExecutor.executePhase (failOnTx ["opt"] (SMError.jsError "boom"))
        optFailPhase (freshPI "of")).2.2.trace) ∧
    (PhaseExecutor.executePhase (realTx none) chainSorted (freshPI "cs")).1 = .ok () := by
  refine ⟨?_, ⟨?_, ?_, by decide⟩, ?_⟩
  · exact (c3_required_optional_failures (failOnTx ["req"] (SMError.jsError "boom"))
      reqFailPhase (freshPI "rf") _ _ _ (by decide) rfl).1
      { id := "req", taskType := "automated", required := true } (by decide)
      (SMError.jsError "boom") rfl rfl (by decide)
  · exact ((c3_required_optional_failures (failOnTx ["opt"] (SMError.jsError "boom"))
      optFailPhase (freshPI "of") _ _ _ (by decide) rfl).2.1
      { id := "opt", taskType := "automated", required := false } (by decide)
      (SMError.jsError "boom") rfl rfl (by decide)).1
  · exact ((c3_required_optional_failures (failOnTx ["opt"] (SMError.jsError "boom"))
      optFailPhase (freshPI "of") _ _ _ (by decide) rfl).2.1
      { id := "opt", taskType := "automated", required := false } (by decide)
      (SMError.jsError "boom") rfl rfl (by decide)).2
  · exact (c3_required_optional_failures (realTx none) chainSorted (freshPI "cs")
      _ _ _ (by decide) rfl).2.2 (by decide)
      (fun t _ _ => ⟨TaskExecutor.executeTask none t, rfl⟩)
